import Mathlib

/-!
Verification development for the iUploader repository (src/iuploader.py, with
the legacy variant src/ibroadcast-uploader.py).  The Python source is shallowly
embedded: pure fragments become Lean functions, the per-file upload worker and
the orchestration loop become explicit functions over an environment that
records the outcome of every network call, and exceptions become
Option/Except values.
-/

namespace IUploader

/-! ## String helpers -/

/-- Lexicographic comparison of two character lists (by code point), the order
Python's `sorted` uses on strings. -/
def strLeChars : List Char → List Char → Bool
  | [], _ => true
  | _ :: _, [] => false
  | a :: as, b :: bs => if a = b then strLeChars as bs else decide (a.toNat < b.toNat)

/-- Lexicographic `≤` on strings (Python string ordering). -/
def strLe (a b : String) : Bool :=
  strLeChars a.data b.data

/-- Does `pat` occur as an initial segment of `l`? -/
def startsList : List Char → List Char → Bool
  | [], _ => true
  | _ :: _, [] => false
  | a :: as, b :: bs => (a = b) && startsList as bs

/-- Numeric value of a digit string, as Python's `int` computes it. -/
def digitsToNat (ds : List Char) : Nat :=
  ds.foldl (fun n c => 10 * n + (c.toNat - 48)) 0

/-- Extension part of a filename, as returned by `os.path.splitext(name)[1]`:
the suffix starting at the last dot, except that a run of leading dots never
starts an extension (`.hidden` has no extension, `.hidden.mp3` has `.mp3`). -/
def lastDotSuffix : List Char → Option (List Char)
  | [] => none
  | c :: rest =>
    match lastDotSuffix rest with
    | some s => some s
    | none => if c = '.' then some (c :: rest) else none

/-- `os.path.splitext(filename)[1]`. -/
def splitextExt (s : String) : String :=
  let cs := s.data
  let rest := cs.dropWhile (fun c => c = '.')
  match lastDotSuffix rest with
  | some suf => String.mk suf
  | none => ""

/-- A name is hidden when it starts with a dot (`filename.startswith "."`). -/
def isHidden (name : String) : Bool :=
  match name.data with
  | [] => false
  | c :: _ => c = '.'

/-! ## TRACK_ID_RE

`TRACK_ID_RE = re.compile("File .* \\((?P<trackid>\\d+)\\) uploaded successfully
and is being processed.")` and `TRACK_ID_RE.match(message)`.  `re.match`
anchors at the start only; `.*` matches greedily any characters except
newline; the final `.` is a wildcard for one non-newline character. -/

/-- Literal text expected after the captured digits: `) uploaded successfully
and is being processed`. -/
def litAfterDigits : List Char :=
  (") uploaded successfully and is being processed").data

/-- Match `\d+\) uploaded successfully and is being processed.` against `l`
(with a trailing wildcard character and anything after), returning the
captured track id. -/
def tailMatch (l : List Char) : Option Nat :=
  let ds := l.takeWhile (fun c => c.isDigit)
  let rest := l.dropWhile (fun c => c.isDigit)
  if ds.isEmpty then none
  else if startsList litAfterDigits rest then
    match rest.drop litAfterDigits.length with
    | c :: _ => if c = '\n' then none else some (digitsToNat ds)
    | [] => none
  else none

/-- Try the pattern ` \(\d+\) uploaded ...` at offset `i` of `body`. -/
def tryAt (body : List Char) (i : Nat) : Option Nat :=
  let rest := body.drop i
  if startsList (" (").data rest then tailMatch (rest.drop 2) else none

/-- Backtracking loop of the greedy `.*`: try offsets `i, i-1, ..., 0`. -/
def tryFrom (body : List Char) : Nat → Option Nat
  | 0 => tryAt body 0
  | i + 1 =>
    match tryAt body (i + 1) with
    | some n => some n
    | none => tryFrom body i

/-- `TRACK_ID_RE.match(msg)`, returning `int(match.group("trackid"))` when the
message matches. -/
def parseTrackMessage (msg : String) : Option Nat :=
  let cs := msg.data
  if startsList ("File ").data cs then
    let body := cs.drop 5
    tryFrom body (body.takeWhile (fun c => c ≠ '\n')).length
  else none

/-- Modelled from the spec: the spec (and the legacy variant
`ibroadcast-uploader.py`) describes the success-message pattern as containing
the uploaded file's basename literally: `File <basename> (<digits>) uploaded
successfully and is being processed.`  This definition matches that literal
pattern (base taken verbatim), for comparison with `parseTrackMessage`, which
is what `iuploader.py` actually does (a `.*` wildcard in place of the
basename). -/
def parseTrackMessageBase (base : String) (msg : String) : Option Nat :=
  let cs := msg.data
  if startsList (("File " ++ base).data) cs then
    tryAt (cs.drop ("File " ++ base).data.length) 0
  else none

/-! ## Upload worker (`Uploader._upload_worker`)

The worker's interaction with the outside world is captured by a `FileEnv`:
the file's MD5 fingerprint, the outcome of the upload POST (`none` models an
exception raised by `open`/`requests`), and the outcome of each
`tagtracks`/`appendplaylist` call keyed by tag/playlist id (`none` models an
exception, `some b` a JSON response whose `result` field is `b`). -/

/-- JSON response of an upload POST, as the worker reads it: a `result` field
and a `message` field. -/
structure UploadResponse where
  result : Bool
  message : String
deriving DecidableEq, Repr

/-- Environment of a single worker run. -/
structure FileEnv where
  md5 : String
  uploadResp : Option UploadResponse
  tagResp : Nat → Option Bool
  playlistResp : Nat → Option Bool

/-- Terminal result of a worker, i.e. the `{"result": ..., "info": ...}`
dictionary it returns: `skipped` carries the path; `uploaded` the path and
track id; `error` the path, the human-readable summary, and the raw server
response when the code attaches one to the debug info. -/
inductive WorkerResult where
  | skipped (path : String)
  | uploaded (path : String) (trackId : Nat)
  | error (path : String) (summary : String) (response : Option UploadResponse)
deriving DecidableEq, Repr

/-- A network request the worker issues. -/
inductive Request where
  | uploadReq
  | tagTracks (tagId : Nat)
  | appendPlaylist (playlistId : Nat)
deriving DecidableEq, Repr

/-- Worker result together with the trace of requests the worker issued. -/
structure WorkerOutput where
  result : WorkerResult
  requests : List Request
deriving Repr

/-- The path recorded in a worker result (`info["path"]`). -/
def resultPath : WorkerResult → String
  | .skipped p => p
  | .uploaded p _ => p
  | .error p _ _ => p

/-- The tag loop of the worker: one `tagtracks` request per entry of
`library_info["tags"]`, stopping at the first exception or falsy result.
Returns the requests issued and the error result, if any. -/
def runTagCalls (fe : FileEnv) (path : String) :
    List (String × Nat) → List Request × Option WorkerResult
  | [] => ([], none)
  | (_, id_) :: rest =>
    match fe.tagResp id_ with
    | none => ([.tagTracks id_], some (.error path "Tag track request error." none))
    | some false => ([.tagTracks id_], some (.error path "Failed to apply tag." none))
    | some true =>
      let (reqs, res) := runTagCalls fe path rest
      (.tagTracks id_ :: reqs, res)

/-- The playlist loop of the worker, analogous to `runTagCalls`. -/
def runPlaylistCalls (fe : FileEnv) (path : String) :
    List (String × Nat) → List Request × Option WorkerResult
  | [] => ([], none)
  | (_, id_) :: rest =>
    match fe.playlistResp id_ with
    | none => ([.appendPlaylist id_], some (.error path "Add to playlist request error." none))
    | some false => ([.appendPlaylist id_], some (.error path "Failed to add to playlist." none))
    | some true =>
      let (reqs, res) := runPlaylistCalls fe path rest
      (.appendPlaylist id_ :: reqs, res)

/-- Summary string for a failed tag call. -/
def tagFailSummary (o : Option Bool) : String :=
  match o with
  | none => "Tag track request error."
  | some _ => "Failed to apply tag."

/-- Summary string for a failed playlist call. -/
def playlistFailSummary (o : Option Bool) : String :=
  match o with
  | none => "Add to playlist request error."
  | some _ => "Failed to add to playlist."

/-- Body of `_upload_worker` from the upload POST on: the `try/except` around
the upload request, the `result` truthiness check, the `TRACK_ID_RE` match,
then the tag and playlist loops. -/
def uploadPhase (path : String) (tags playlists : List (String × Nat))
    (fe : FileEnv) : WorkerOutput :=
  match fe.uploadResp with
  | none => ⟨.error path "File upload request error." none, [.uploadReq]⟩
  | some resp =>
    if resp.result then
      match parseTrackMessage resp.message with
      | none =>
        ⟨.error path "Unexpected message format. Maybe it's changed?" (some resp), [.uploadReq]⟩
      | some trackId =>
        let (treqs, tres) := runTagCalls fe path tags
        match tres with
        | some err => ⟨err, .uploadReq :: treqs⟩
        | none =>
          let (preqs, pres) := runPlaylistCalls fe path playlists
          match pres with
          | some err => ⟨err, .uploadReq :: treqs ++ preqs⟩
          | none => ⟨.uploaded path trackId, .uploadReq :: treqs ++ preqs⟩
    else ⟨.error path "File upload failed." (some resp), [.uploadReq]⟩

/-- `Uploader._upload_worker(filepath, library_info, library)`: `library` is
`none` when duplicate checking is disabled, otherwise the server's MD5 set;
when the file's MD5 is in the set the worker returns the skipped result before
issuing any request. -/
def upload_worker (path : String) (tags playlists : List (String × Nat))
    (library : Option (List String)) (fe : FileEnv) : WorkerOutput :=
  match library with
  | some lib =>
    if fe.md5 ∈ lib then ⟨.skipped path, []⟩
    else uploadPhase path tags playlists fe
  | none => uploadPhase path tags playlists fe

/-! ## Upload orchestration (`Uploader.upload`)

`upload` sorts the candidate file set, submits one worker task per file to the
pool (all of them — the duplicate check happens inside the worker), and
aggregates each completed task's result into the `uploaded`/`skipped`/`error`
buckets.  Completion order does not affect bucket membership, so the
aggregation is modelled in submission order. -/

/-- `sorted(files)`: Python's lexicographic sort of the candidate set. -/
def sortFiles (files : List String) : List String :=
  List.insertionSort (fun a b => strLe a b = true) files

/-- The tasks submitted to the worker pool: one per sorted candidate file,
with no filtering before submission (`promises = [executor.submit(...) for
filepath in sorted(files)]`). -/
def submittedTasks (files : List String) : List String :=
  sortFiles files

/-- The three result buckets of `Uploader.upload`. -/
structure Results where
  uploaded : List (String × Nat)
  skipped : List String
  error : List (String × String × Option UploadResponse)
deriving Repr

/-- `results[retval["result"]].append(retval["info"])` for one worker result. -/
def addResult (w : WorkerResult) (r : Results) : Results :=
  match w with
  | .skipped p => { r with skipped := p :: r.skipped }
  | .uploaded p tid => { r with uploaded := (p, tid) :: r.uploaded }
  | .error p s resp => { r with error := (p, s, resp) :: r.error }

/-- Aggregation loop over the (sorted) submitted files. -/
def aggregate (tags playlists : List (String × Nat)) (library : Option (List String))
    (env : String → FileEnv) : List String → Results
  | [] => ⟨[], [], []⟩
  | f :: rest =>
    addResult (upload_worker f tags playlists library (env f)).result
      (aggregate tags playlists library env rest)

/-- `Uploader.upload(files, library_info, skip_duplicates, parallel)`: when
`skip_duplicates` is set the server MD5 set is fetched first (`library = some
remoteMd5s`), otherwise `library = none`. -/
def upload (tags playlists : List (String × Nat)) (library : Option (List String))
    (env : String → FileEnv) (files : List String) : Results :=
  aggregate tags playlists library env (sortFiles files)

/-- Number of entries for path `f` in the uploaded bucket. -/
def uploadedCount (r : Results) (f : String) : Nat :=
  (r.uploaded.map Prod.fst).count f

/-- Number of entries for path `f` in the skipped bucket. -/
def skippedCount (r : Results) (f : String) : Nat :=
  r.skipped.count f

/-- Number of entries for path `f` in the error bucket. -/
def errorCount (r : Results) (f : String) : Nat :=
  (r.error.map Prod.fst).count f

/-! ## Top-level run (`Uploader.process` and `__main__`)

`process` calls `login()` and `supported_filetypes()`, each inside a
`try/except ValueError` that prints a message and returns (so the script then
exits with status 0); any other exception propagates out of `process`, and an
uncaught exception makes the Python process exit with a non-zero status.
Only after both setup calls succeed does `process` run file discovery, the
confirmation prompt, and the upload. -/

/-- Outcome of one of the two setup calls: success, a raised `ValueError`
(the server rejected the login / account-info request), or any other
exception (e.g. a `requests` HTTP error). -/
inductive SetupOutcome where
  | ok
  | valueError
  | otherExc
deriving DecidableEq, Repr

/-- Environment of a `process` run. -/
structure ProcessEnv where
  loginOutcome : SetupOutcome
  filetypesOutcome : SetupOutcome
  confirmAnswer : Bool
deriving DecidableEq, Repr

/-- Observable trace of a `process` run: the process exit status and which
phases were reached. -/
structure ProcessTrace where
  exitCode : Nat
  ranDiscovery : Bool
  ranConfirm : Bool
  ranUpload : Bool
deriving DecidableEq, Repr

/-- `Uploader.process` followed by interpreter exit. -/
def process (env : ProcessEnv) : ProcessTrace :=
  match env.loginOutcome with
  | .valueError => ⟨0, false, false, false⟩
  | .otherExc => ⟨1, false, false, false⟩
  | .ok =>
    match env.filetypesOutcome with
    | .valueError => ⟨0, false, false, false⟩
    | .otherExc => ⟨1, false, false, false⟩
    | .ok =>
      if env.confirmAnswer then ⟨0, true, true, true⟩
      else ⟨0, true, true, false⟩

/-! ## File discovery

A directory tree is modelled by `FSEntry`.  `discover_files` (iuploader.py)
walks every root with `os.walk` and keeps files whose `splitext` extension is
in the supported set — no hidden-file filtering.  `load_files`
(ibroadcast-uploader.py) globs each directory, skips names starting with a
dot, keeps entries with a supported extension, and recurses into non-hidden
subdirectories. -/

/-- A file-system entry: a regular file or a directory with children. -/
inductive FSEntry where
  | file (name : String)
  | dir (name : String) (children : List FSEntry)
deriving Repr

/-- `os.path.join(dirpath, filename)`. -/
def joinPath (d name : String) : String :=
  d ++ "/" ++ name

mutual

/-- `os.walk` over a list of sibling entries below directory path `d`,
yielding `(dirpath, filename)` pairs. -/
def walkList (d : String) : List FSEntry → List (String × String)
  | [] => []
  | e :: rest => walkOne d e ++ walkList d rest

/-- `os.walk` contribution of one entry below directory path `d`. -/
def walkOne (d : String) : FSEntry → List (String × String)
  | .file name => [(d, name)]
  | .dir name children => walkList (joinPath d name) children

end

/-- `os.walk(root)` for one root (walking a non-directory yields nothing). -/
def walkTop : FSEntry → List (String × String)
  | .file _ => []
  | .dir name children => walkList name children

/-- `Uploader.discover_files(root_directories, filetypes)`. -/
def discover_files (roots : List FSEntry) (filetypes : List String) : List String :=
  (((roots.map walkTop).flatten).filter
      (fun pr => filetypes.contains (splitextExt pr.2))).map
    (fun pr => joinPath pr.1 pr.2)

mutual

/-- `glob(directory/*)` loop of the legacy `load_files`, over sibling entries
below directory path `d`. -/
def loadList (ftypes : List String) (d : String) : List FSEntry → List String
  | [] => []
  | e :: rest => loadOne ftypes d e ++ loadList ftypes d rest

/-- One iteration of the legacy `load_files` loop: skip hidden names, keep
entries with a supported extension, recurse into directories. -/
def loadOne (ftypes : List String) (d : String) : FSEntry → List String
  | .file name =>
    if isHidden name then []
    else if ftypes.contains (splitextExt name) then [joinPath d name] else []
  | .dir name children =>
    if isHidden name then []
    else
      (if ftypes.contains (splitextExt name) then [joinPath d name] else []) ++
        loadList ftypes (joinPath d name) children

end

/-- Legacy `Uploader.load_files(directory, filetypes)` (hidden-file-filtering
variant). -/
def load_files (ftypes : List String) : FSEntry → List String
  | .file _ => []
  | .dir name children => loadList ftypes name children

/-! ## Tag and playlist resolution (`Uploader.load_tags`, `Uploader.load_playlists`)

A Python `dict` whose keys are strings is modelled as an association list in
insertion order, where assignment to an existing key overwrites in place
(`dictInsert`).  Both resolvers scan the catalog once, collecting
`name -> id` for every requested name found and removing it from the
`missing` set — `set.remove` raises `KeyError` when the element is absent,
which happens exactly when a requested name was already matched by an earlier
catalog entry.  The remaining missing names are then created, one call each.
The scans share their shape, so they are both instances of `scanCatalog`,
differing only in how an entry's name and id are read. -/

/-- Python `dict` assignment `m[k] = v`: overwrite in place, else append. -/
def dictInsert (k : String) (v : Nat) : List (String × Nat) → List (String × Nat)
  | [] => [(k, v)]
  | (k', v') :: rest =>
    if k' = k then (k, v) :: rest else (k', v') :: dictInsert k v rest

/-- Python `dict` assignment for string values. -/
def dictInsertS (k v : String) : List (String × String) → List (String × String)
  | [] => [(k, v)]
  | (k', v') :: rest =>
    if k' = k then (k, v) :: rest else (k', v') :: dictInsertS k v rest

/-- `dict(pairs)`: build a dict from a pair list, later pairs overwriting
earlier ones with the same key. -/
def dictOfPairs (prs : List (String × String)) : List (String × String) :=
  prs.foldl (fun m kv => dictInsertS kv.1 kv.2 m) []

/-- Catalog scan common to `load_tags` and `load_playlists`: `getName` reads
an entry's embedded name (`none` models the `KeyError` of `info["name"]` on a
malformed playlist entry), `getId` its id.  Errors are the uncaught
`KeyError`s the Python code can raise. -/
def scanCatalog (getName : α → Option String) (getId : α → Nat) (names : List String) :
    List α → List (String × Nat) → List String →
      Except String (List (String × Nat) × List String)
  | [], acc, missing => .ok (acc, missing)
  | e :: rest, acc, missing =>
    match getName e with
    | none => .error "KeyError: name"
    | some nm =>
      if names.contains nm then
        if missing.contains nm then
          scanCatalog getName getId names rest (dictInsert nm (getId e) acc) (missing.erase nm)
        else .error "KeyError: missing.remove"
      else scanCatalog getName getId names rest acc missing

/-- Creation loop shared by both resolvers: one `createtag`/`createplaylist`
call per name still missing after the scan, the returned id recorded. -/
def createMissing (createId : String → Nat) (missing : List String)
    (acc : List (String × Nat)) : List (String × Nat) :=
  missing.foldl (fun m nm => dictInsert nm (createId nm) m) acc

/-- Scan-then-create pipeline shared by `load_tags` and `load_playlists`:
scan the catalog with `missing = set(names)`, then create every name still
missing.  Returns the resolved `name -> id` dict together with the list of
names created. -/
def resolveCatalog (getName : α → Option String) (getId : α → Nat) (names : List String)
    (createId : String → Nat) (cat : List α) :
    Except String (List (String × Nat) × List String) := do
  let (acc, missing) ← scanCatalog getName getId names cat [] names.dedup
  return (createMissing createId missing acc, missing)

/-- `Uploader.load_tags(library, names)`: the tag catalog maps tag id to an
info dict with the name embedded (`(tag_id, name)` pairs here); `createId`
models the id returned by the `createtag` call. -/
def load_tags (catalog : List (Nat × String)) (names : List String)
    (createId : String → Nat) : Except String (List (String × Nat) × List String) :=
  resolveCatalog (fun e => some e.2) (fun e => e.1) names createId catalog

/-- The `(name, id)` pairs of catalog entries whose embedded name is
requested, in catalog order (what the scan's first loop collects). -/
def matchedPairs (getName : α → Option String) (getId : α → Nat) (names : List String)
    (cat : List α) : List (String × Nat) :=
  cat.filterMap (fun e => (getName e).bind (fun nm =>
    if names.contains nm then some (nm, getId e) else none))

/-- The requested names that occur in the catalog, in catalog order. -/
def matchedNames (getName : α → Option String) (getId : α → Nat) (names : List String)
    (cat : List α) : List String :=
  (matchedPairs getName getId names cat).map Prod.fst

/-- `sorted(field_map.keys(), key=lambda key: field_map[key])`: the playlist
field names in increasing order of their assigned position (a stable
insertion sort, as Python's `sorted` is stable). -/
def sortFields (field_map : List (String × Nat)) : List String :=
  (List.insertionSort (fun a b : String × Nat => a.2 ≤ b.2) field_map).map Prod.fst

/-- `dict(zip(fields, info_list))`: the record the code reconstructs for one
playlist catalog entry. -/
def playlistInfo (fields : List String) (info_list : List String) :
    List (String × String) :=
  dictOfPairs (List.zip fields info_list)

/-- `info["name"]` of one playlist entry, given the sorted field names. -/
def entryName (fields : List String) (e : Nat × List String) : Option String :=
  (playlistInfo fields e.2).lookup "name"

/-- `Uploader.load_playlists(library, names)`: the playlist catalog maps
playlist id to a positional field array (`entries`), and the popped `"map"`
value maps field name to position (`field_map`); `createId` models the
`playlist_id` returned by the `createplaylist` call. -/
def load_playlists (entries : List (Nat × List String)) (field_map : List (String × Nat))
    (names : List String) (createId : String → Nat) :
    Except String (List (String × Nat) × List String) :=
  resolveCatalog (entryName (sortFields field_map)) (fun e => e.1) names createId entries

/-- Modelled from the spec: the name-keyed record "given by pairing each
field-name with the array element at the position the map assigns it" — for
comparison with `playlistInfo`, which pairs by rank in position order. -/
def playlistInfoSpec (field_map : List (String × Nat)) (info_list : List String) :
    List (String × String) :=
  field_map.filterMap (fun fp => (info_list.get? fp.2).map (fun v => (fp.1, v)))

/-! ## Lemmas about the worker -/

lemma runTagCalls_all_ok (fe : FileEnv) (p : String) :
    ∀ l : List (String × Nat), (∀ x ∈ l, fe.tagResp x.2 = some true) →
      runTagCalls fe p l = (l.map (fun x => .tagTracks x.2), none) := by
  intro l
  induction l with
  | nil => intro _; rfl
  | cons x rest ih =>
    intro h
    have hx := h x (List.mem_cons_self x rest)
    obtain ⟨nm, id_⟩ := x
    simp only at hx
    simp [runTagCalls, hx, ih (fun y hy => h y (List.mem_cons_of_mem _ hy))]

lemma runPlaylistCalls_all_ok (fe : FileEnv) (p : String) :
    ∀ l : List (String × Nat), (∀ x ∈ l, fe.playlistResp x.2 = some true) →
      runPlaylistCalls fe p l = (l.map (fun x => .appendPlaylist x.2), none) := by
  intro l
  induction l with
  | nil => intro _; rfl
  | cons x rest ih =>
    intro h
    have hx := h x (List.mem_cons_self x rest)
    obtain ⟨nm, id_⟩ := x
    simp only at hx
    simp [runPlaylistCalls, hx, ih (fun y hy => h y (List.mem_cons_of_mem _ hy))]

lemma runTagCalls_first_fail (fe : FileEnv) (p : String) (l1 : List (String × Nat))
    (x : String × Nat) (l2 : List (String × Nat))
    (h1 : ∀ y ∈ l1, fe.tagResp y.2 = some true) (hx : fe.tagResp x.2 ≠ some true) :
    runTagCalls fe p (l1 ++ x :: l2) =
      (l1.map (fun y => .tagTracks y.2) ++ [.tagTracks x.2],
        some (.error p (tagFailSummary (fe.tagResp x.2)) none)) := by
  induction l1 with
  | nil =>
    obtain ⟨nm, id_⟩ := x
    match hr : fe.tagResp id_ with
    | none => simp [runTagCalls, hr, tagFailSummary]
    | some false => simp [runTagCalls, hr, tagFailSummary]
    | some true => exact absurd hr hx
  | cons y rest ih =>
    have hy := h1 y (List.mem_cons_self y rest)
    obtain ⟨nm, id_⟩ := y
    simp only at hy
    simp [runTagCalls, hy, ih (fun z hz => h1 z (List.mem_cons_of_mem _ hz))]

lemma runPlaylistCalls_first_fail (fe : FileEnv) (p : String) (l1 : List (String × Nat))
    (x : String × Nat) (l2 : List (String × Nat))
    (h1 : ∀ y ∈ l1, fe.playlistResp y.2 = some true)
    (hx : fe.playlistResp x.2 ≠ some true) :
    runPlaylistCalls fe p (l1 ++ x :: l2) =
      (l1.map (fun y => .appendPlaylist y.2) ++ [.appendPlaylist x.2],
        some (.error p (playlistFailSummary (fe.playlistResp x.2)) none)) := by
  induction l1 with
  | nil =>
    obtain ⟨nm, id_⟩ := x
    match hr : fe.playlistResp id_ with
    | none => simp [runPlaylistCalls, hr, playlistFailSummary]
    | some false => simp [runPlaylistCalls, hr, playlistFailSummary]
    | some true => exact absurd hr hx
  | cons y rest ih =>
    have hy := h1 y (List.mem_cons_self y rest)
    obtain ⟨nm, id_⟩ := y
    simp only at hy
    simp [runPlaylistCalls, hy, ih (fun z hz => h1 z (List.mem_cons_of_mem _ hz))]

lemma runTagCalls_err_shape (fe : FileEnv) (p : String) :
    ∀ l err, (runTagCalls fe p l).2 = some err → ∃ s, err = .error p s none := by
  intro l
  induction l with
  | nil => intro err h; simp [runTagCalls] at h
  | cons x rest ih =>
    intro err h
    obtain ⟨nm, id_⟩ := x
    match hr : fe.tagResp id_ with
    | none =>
      simp [runTagCalls, hr] at h
      exact ⟨_, h.symm⟩
    | some false =>
      simp [runTagCalls, hr] at h
      exact ⟨_, h.symm⟩
    | some true =>
      simp [runTagCalls, hr] at h
      exact ih err h

lemma runPlaylistCalls_err_shape (fe : FileEnv) (p : String) :
    ∀ l err, (runPlaylistCalls fe p l).2 = some err → ∃ s, err = .error p s none := by
  intro l
  induction l with
  | nil => intro err h; simp [runPlaylistCalls] at h
  | cons x rest ih =>
    intro err h
    obtain ⟨nm, id_⟩ := x
    match hr : fe.playlistResp id_ with
    | none =>
      simp [runPlaylistCalls, hr] at h
      exact ⟨_, h.symm⟩
    | some false =>
      simp [runPlaylistCalls, hr] at h
      exact ⟨_, h.symm⟩
    | some true =>
      simp [runPlaylistCalls, hr] at h
      exact ih err h

lemma runTagCalls_some_fail (fe : FileEnv) (p : String) :
    ∀ l : List (String × Nat), (∃ x ∈ l, fe.tagResp x.2 ≠ some true) →
      ∃ s, (runTagCalls fe p l).2 = some (.error p s none) := by
  intro l
  induction l with
  | nil => rintro ⟨x, hx, _⟩; cases hx
  | cons y rest ih =>
    rintro ⟨x, hx, hfail⟩
    obtain ⟨nm, id_⟩ := y
    match hr : fe.tagResp id_ with
    | none => exact ⟨"Tag track request error.", by simp [runTagCalls, hr]⟩
    | some false => exact ⟨"Failed to apply tag.", by simp [runTagCalls, hr]⟩
    | some true =>
      rcases List.mem_cons.1 hx with rfl | hx'
      · exact absurd hr hfail
      · obtain ⟨s, hs⟩ := ih ⟨x, hx', hfail⟩
        exact ⟨s, by simp [runTagCalls, hr, hs]⟩

lemma runPlaylistCalls_some_fail (fe : FileEnv) (p : String) :
    ∀ l : List (String × Nat), (∃ x ∈ l, fe.playlistResp x.2 ≠ some true) →
      ∃ s, (runPlaylistCalls fe p l).2 = some (.error p s none) := by
  intro l
  induction l with
  | nil => rintro ⟨x, hx, _⟩; cases hx
  | cons y rest ih =>
    rintro ⟨x, hx, hfail⟩
    obtain ⟨nm, id_⟩ := y
    match hr : fe.playlistResp id_ with
    | none => exact ⟨"Add to playlist request error.", by simp [runPlaylistCalls, hr]⟩
    | some false => exact ⟨"Failed to add to playlist.", by simp [runPlaylistCalls, hr]⟩
    | some true =>
      rcases List.mem_cons.1 hx with rfl | hx'
      · exact absurd hr hfail
      · obtain ⟨s, hs⟩ := ih ⟨x, hx', hfail⟩
        exact ⟨s, by simp [runPlaylistCalls, hr, hs]⟩

lemma upload_worker_skip (p : String) (tags playlists : List (String × Nat))
    (lib : List String) (fe : FileEnv) (h : fe.md5 ∈ lib) :
    upload_worker p tags playlists (some lib) fe = ⟨.skipped p, []⟩ := by
  simp [upload_worker, h]

lemma upload_worker_no_skip (p : String) (tags playlists : List (String × Nat))
    (library : Option (List String)) (fe : FileEnv)
    (h : ∀ lib, library = some lib → fe.md5 ∉ lib) :
    upload_worker p tags playlists library fe = uploadPhase p tags playlists fe := by
  match library with
  | none => rfl
  | some lib => simp [upload_worker, h lib rfl]

lemma uploadPhase_exc (p : String) (tags playlists : List (String × Nat))
    (fe : FileEnv) (h : fe.uploadResp = none) :
    uploadPhase p tags playlists fe =
      ⟨.error p "File upload request error." none, [.uploadReq]⟩ := by
  simp [uploadPhase, h]

lemma uploadPhase_failed (p : String) (tags playlists : List (String × Nat))
    (fe : FileEnv) (resp : UploadResponse) (h : fe.uploadResp = some resp)
    (hres : resp.result = false) :
    uploadPhase p tags playlists fe =
      ⟨.error p "File upload failed." (some resp), [.uploadReq]⟩ := by
  simp [uploadPhase, h, hres]

lemma uploadPhase_bad_message (p : String) (tags playlists : List (String × Nat))
    (fe : FileEnv) (resp : UploadResponse) (h : fe.uploadResp = some resp)
    (hres : resp.result = true) (hmsg : parseTrackMessage resp.message = none) :
    uploadPhase p tags playlists fe =
      ⟨.error p "Unexpected message format. Maybe it's changed?" (some resp), [.uploadReq]⟩ := by
  simp [uploadPhase, h, hres, hmsg]

lemma uploadPhase_success (p : String) (tags playlists : List (String × Nat))
    (fe : FileEnv) (resp : UploadResponse) (tid : Nat) (h : fe.uploadResp = some resp)
    (hres : resp.result = true) (hmsg : parseTrackMessage resp.message = some tid)
    (htags : ∀ x ∈ tags, fe.tagResp x.2 = some true)
    (hpls : ∀ x ∈ playlists, fe.playlistResp x.2 = some true) :
    uploadPhase p tags playlists fe =
      ⟨.uploaded p tid,
        .uploadReq :: tags.map (fun x => .tagTracks x.2) ++
          playlists.map (fun x => .appendPlaylist x.2)⟩ := by
  simp [uploadPhase, h, hres, hmsg, runTagCalls_all_ok fe p tags htags,
    runPlaylistCalls_all_ok fe p playlists hpls]

lemma uploadPhase_tag_fail (p : String) (playlists : List (String × Nat))
    (fe : FileEnv) (resp : UploadResponse) (tid : Nat)
    (l1 : List (String × Nat)) (x : String × Nat) (l2 : List (String × Nat))
    (h : fe.uploadResp = some resp) (hres : resp.result = true)
    (hmsg : parseTrackMessage resp.message = some tid)
    (h1 : ∀ y ∈ l1, fe.tagResp y.2 = some true) (hx : fe.tagResp x.2 ≠ some true) :
    uploadPhase p (l1 ++ x :: l2) playlists fe =
      ⟨.error p (tagFailSummary (fe.tagResp x.2)) none,
        .uploadReq :: (l1.map (fun y => .tagTracks y.2) ++ [.tagTracks x.2])⟩ := by
  simp [uploadPhase, h, hres, hmsg, runTagCalls_first_fail fe p l1 x l2 h1 hx]

lemma uploadPhase_playlist_fail (p : String) (tags : List (String × Nat))
    (fe : FileEnv) (resp : UploadResponse) (tid : Nat)
    (l1 : List (String × Nat)) (x : String × Nat) (l2 : List (String × Nat))
    (h : fe.uploadResp = some resp) (hres : resp.result = true)
    (hmsg : parseTrackMessage resp.message = some tid)
    (htags : ∀ y ∈ tags, fe.tagResp y.2 = some true)
    (h1 : ∀ y ∈ l1, fe.playlistResp y.2 = some true)
    (hx : fe.playlistResp x.2 ≠ some true) :
    uploadPhase p tags (l1 ++ x :: l2) fe =
      ⟨.error p (playlistFailSummary (fe.playlistResp x.2)) none,
        .uploadReq :: (tags.map (fun y => .tagTracks y.2) ++
          (l1.map (fun y => .appendPlaylist y.2) ++ [.appendPlaylist x.2]))⟩ := by
  simp [uploadPhase, h, hres, hmsg, runTagCalls_all_ok fe p tags htags,
    runPlaylistCalls_first_fail fe p l1 x l2 h1 hx]

lemma uploadPhase_not_skipped (p : String) (tags playlists : List (String × Nat))
    (fe : FileEnv) : ∀ q, (uploadPhase p tags playlists fe).result ≠ .skipped q := by
  intro q
  unfold uploadPhase
  match h : fe.uploadResp with
  | none => simp
  | some resp =>
    by_cases hres : resp.result
    · simp only [hres, if_pos]
      match hmsg : parseTrackMessage resp.message with
      | none => simp
      | some tid =>
        simp only
        match htr : runTagCalls fe p tags with
        | (treqs, some err) =>
          obtain ⟨s, rfl⟩ := runTagCalls_err_shape fe p tags err (by rw [htr])
          simp
        | (treqs, none) =>
          simp only
          match hpr : runPlaylistCalls fe p playlists with
          | (preqs, some err) =>
            obtain ⟨s, rfl⟩ := runPlaylistCalls_err_shape fe p playlists err (by rw [hpr])
            simp
          | (preqs, none) => simp
    · simp [hres]

lemma uploadPhase_requests_head (p : String) (tags playlists : List (String × Nat))
    (fe : FileEnv) :
    ∃ t, (uploadPhase p tags playlists fe).requests = .uploadReq :: t := by
  unfold uploadPhase
  match h : fe.uploadResp with
  | none => exact ⟨[], rfl⟩
  | some resp =>
    by_cases hres : resp.result
    · simp only [hres, if_pos]
      match hmsg : parseTrackMessage resp.message with
      | none => exact ⟨[], rfl⟩
      | some tid =>
        simp only
        match htr : runTagCalls fe p tags with
        | (treqs, some err) => exact ⟨treqs, rfl⟩
        | (treqs, none) =>
          simp only
          match hpr : runPlaylistCalls fe p playlists with
          | (preqs, some err) => exact ⟨treqs ++ preqs, rfl⟩
          | (preqs, none) => exact ⟨treqs ++ preqs, rfl⟩
    · simp [hres]

lemma uploadPhase_path (p : String) (tags playlists : List (String × Nat))
    (fe : FileEnv) : resultPath (uploadPhase p tags playlists fe).result = p := by
  unfold uploadPhase
  match h : fe.uploadResp with
  | none => rfl
  | some resp =>
    by_cases hres : resp.result
    · simp only [hres, if_pos]
      match hmsg : parseTrackMessage resp.message with
      | none => rfl
      | some tid =>
        simp only
        match htr : runTagCalls fe p tags with
        | (treqs, some err) =>
          obtain ⟨s, rfl⟩ := runTagCalls_err_shape fe p tags err (by rw [htr])
          rfl
        | (treqs, none) =>
          simp only
          match hpr : runPlaylistCalls fe p playlists with
          | (preqs, some err) =>
            obtain ⟨s, rfl⟩ := runPlaylistCalls_err_shape fe p playlists err (by rw [hpr])
            rfl
          | (preqs, none) => rfl
    · simp [hres, resultPath]

lemma upload_worker_path (p : String) (tags playlists : List (String × Nat))
    (library : Option (List String)) (fe : FileEnv) :
    resultPath (upload_worker p tags playlists library fe).result = p := by
  match library with
  | none => exact uploadPhase_path p tags playlists fe
  | some lib =>
    by_cases h : fe.md5 ∈ lib
    · simp [upload_worker, h, resultPath]
    · simp only [upload_worker, h, if_neg, if_false]
      exact uploadPhase_path p tags playlists fe

lemma upload_worker_dispatched_not_skipped (p : String)
    (tags playlists : List (String × Nat)) (library : Option (List String))
    (fe : FileEnv) (h : .uploadReq ∈ (upload_worker p tags playlists library fe).requests) :
    ∀ q, (upload_worker p tags playlists library fe).result ≠ .skipped q := by
  match library with
  | none => exact uploadPhase_not_skipped p tags playlists fe
  | some lib =>
    by_cases hmem : fe.md5 ∈ lib
    · rw [upload_worker_skip p tags playlists lib fe hmem] at h
      cases h
    · rw [upload_worker_no_skip p tags playlists _ fe (fun l hl => by cases hl; exact hmem)] at h ⊢
      exact uploadPhase_not_skipped p tags playlists fe

/-! ## Lemmas about the aggregation loop -/

lemma uploadedCount_addResult (w : WorkerResult) (r : Results) (f : String) :
    uploadedCount (addResult w r) f =
      uploadedCount r f +
        (match w with | .uploaded p _ => if p = f then 1 else 0 | _ => 0) := by
  cases w with
  | skipped p => simp [addResult, uploadedCount]
  | uploaded p tid =>
    by_cases hpf : p = f
    · subst hpf; simp [addResult, uploadedCount, List.count_cons]
    · simp [addResult, uploadedCount, List.count_cons, hpf]
  | error p s resp => simp [addResult, uploadedCount]

lemma skippedCount_addResult (w : WorkerResult) (r : Results) (f : String) :
    skippedCount (addResult w r) f =
      skippedCount r f +
        (match w with | .skipped p => if p = f then 1 else 0 | _ => 0) := by
  cases w with
  | skipped p =>
    by_cases hpf : p = f
    · subst hpf; simp [addResult, skippedCount, List.count_cons]
    · simp [addResult, skippedCount, List.count_cons, hpf]
  | uploaded p tid => simp [addResult, skippedCount]
  | error p s resp => simp [addResult, skippedCount]

lemma errorCount_addResult (w : WorkerResult) (r : Results) (f : String) :
    errorCount (addResult w r) f =
      errorCount r f +
        (match w with | .error p _ _ => if p = f then 1 else 0 | _ => 0) := by
  cases w with
  | skipped p => simp [addResult, errorCount]
  | uploaded p tid => simp [addResult, errorCount]
  | error p s resp =>
    by_cases hpf : p = f
    · subst hpf; simp [addResult, errorCount, List.count_cons]
    · simp [addResult, errorCount, List.count_cons, hpf]

lemma aggregate_counts (tags playlists : List (String × Nat))
    (lib : Option (List String)) (env : String → FileEnv) (f : String) :
    ∀ fs : List String,
      uploadedCount (aggregate tags playlists lib env fs) f =
        (match (upload_worker f tags playlists lib (env f)).result with
          | .uploaded _ _ => fs.count f
          | _ => 0) ∧
      skippedCount (aggregate tags playlists lib env fs) f =
        (match (upload_worker f tags playlists lib (env f)).result with
          | .skipped _ => fs.count f
          | _ => 0) ∧
      errorCount (aggregate tags playlists lib env fs) f =
        (match (upload_worker f tags playlists lib (env f)).result with
          | .error _ _ _ => fs.count f
          | _ => 0) := by
  intro fs
  induction fs with
  | nil =>
    refine ⟨?_, ?_, ?_⟩ <;>
      cases hw : (upload_worker f tags playlists lib (env f)).result <;>
        simp [aggregate, uploadedCount, skippedCount, errorCount]
  | cons g rest ih =>
    obtain ⟨ihu, ihs, ihe⟩ := ih
    by_cases hg : g = f
    · subst hg
      refine ⟨?_, ?_, ?_⟩
      · rw [aggregate, uploadedCount_addResult, ihu]
        cases hw : (upload_worker g tags playlists lib (env g)).result with
        | skipped q => simp
        | uploaded q tid =>
          have hq : q = g := by
            have := upload_worker_path g tags playlists lib (env g)
            rw [hw] at this; exact this
          simp [hq, List.count_cons]
        | error q s resp => simp
      · rw [aggregate, skippedCount_addResult, ihs]
        cases hw : (upload_worker g tags playlists lib (env g)).result with
        | skipped q =>
          have hq : q = g := by
            have := upload_worker_path g tags playlists lib (env g)
            rw [hw] at this; exact this
          simp [hq, List.count_cons]
        | uploaded q tid => simp
        | error q s resp => simp
      · rw [aggregate, errorCount_addResult, ihe]
        cases hw : (upload_worker g tags playlists lib (env g)).result with
        | skipped q => simp
        | uploaded q tid => simp
        | error q s resp =>
          have hq : q = g := by
            have := upload_worker_path g tags playlists lib (env g)
            rw [hw] at this; exact this
          simp [hq, List.count_cons]
    · have hpath := upload_worker_path g tags playlists lib (env g)
      have hcount : (g :: rest).count f = rest.count f := by
        simp [List.count_cons, hg]
      refine ⟨?_, ?_, ?_⟩
      · rw [aggregate, uploadedCount_addResult, ihu, hcount]
        cases hw : (upload_worker g tags playlists lib (env g)).result with
        | skipped q => simp
        | uploaded q tid =>
          rw [hw] at hpath
          simp only [resultPath] at hpath
          simp [hpath, hg]
        | error q s resp => simp
      · rw [aggregate, skippedCount_addResult, ihs, hcount]
        cases hw : (upload_worker g tags playlists lib (env g)).result with
        | skipped q =>
          rw [hw] at hpath
          simp only [resultPath] at hpath
          simp [hpath, hg]
        | uploaded q tid => simp
        | error q s resp => simp
      · rw [aggregate, errorCount_addResult, ihe, hcount]
        cases hw : (upload_worker g tags playlists lib (env g)).result with
        | skipped q => simp
        | uploaded q tid => simp
        | error q s resp =>
          rw [hw] at hpath
          simp only [resultPath] at hpath
          simp [hpath, hg]

lemma sortFiles_count (files : List String) (f : String) :
    (sortFiles files).count f = files.count f :=
  List.Perm.count_eq (List.perm_insertionSort (fun a b => strLe a b = true) files) f

lemma upload_counts (tags playlists : List (String × Nat))
    (lib : Option (List String)) (env : String → FileEnv) (f : String)
    (files : List String) :
    uploadedCount (upload tags playlists lib env files) f =
      (match (upload_worker f tags playlists lib (env f)).result with
        | .uploaded _ _ => files.count f
        | _ => 0) ∧
    skippedCount (upload tags playlists lib env files) f =
      (match (upload_worker f tags playlists lib (env f)).result with
        | .skipped _ => files.count f
        | _ => 0) ∧
    errorCount (upload tags playlists lib env files) f =
      (match (upload_worker f tags playlists lib (env f)).result with
        | .error _ _ _ => files.count f
        | _ => 0) := by
  have h := aggregate_counts tags playlists lib env f (sortFiles files)
  rw [sortFiles_count files f] at h
  exact h

lemma upload_counts_sum (tags playlists : List (String × Nat))
    (lib : Option (List String)) (env : String → FileEnv) (f : String)
    (files : List String) :
    uploadedCount (upload tags playlists lib env files) f +
        skippedCount (upload tags playlists lib env files) f +
        errorCount (upload tags playlists lib env files) f = files.count f := by
  obtain ⟨hu, hs, he⟩ := upload_counts tags playlists lib env f files
  rw [hu, hs, he]
  cases (upload_worker f tags playlists lib (env f)).result <;> simp

lemma uploadPhase_tag_err (p : String) (tags playlists : List (String × Nat))
    (fe : FileEnv) (resp : UploadResponse) (tid : Nat) (err : WorkerResult)
    (h : fe.uploadResp = some resp) (hres : resp.result = true)
    (hmsg : parseTrackMessage resp.message = some tid)
    (htr : (runTagCalls fe p tags).2 = some err) :
    (uploadPhase p tags playlists fe).result = err := by
  unfold uploadPhase
  rw [h]
  simp only [hres, if_pos, hmsg]
  rcases hrt : runTagCalls fe p tags with ⟨treqs, tres⟩
  rw [hrt] at htr
  simp only at htr
  subst htr
  simp

lemma uploadPhase_playlist_err (p : String) (tags playlists : List (String × Nat))
    (fe : FileEnv) (resp : UploadResponse) (tid : Nat) (err : WorkerResult)
    (h : fe.uploadResp = some resp) (hres : resp.result = true)
    (hmsg : parseTrackMessage resp.message = some tid)
    (htr : (runTagCalls fe p tags).2 = none)
    (hpr : (runPlaylistCalls fe p playlists).2 = some err) :
    (uploadPhase p tags playlists fe).result = err := by
  unfold uploadPhase
  rw [h]
  simp only [hres, if_pos, hmsg]
  rcases hrt : runTagCalls fe p tags with ⟨treqs, tres⟩
  rw [hrt] at htr
  simp only at htr
  subst htr
  rcases hrp : runPlaylistCalls fe p playlists with ⟨preqs, pres⟩
  rw [hrp] at hpr
  simp only at hpr
  subst hpr
  simp

/-! ## Claims about the upload pipeline -/

/-- C1, counterexample: with `skip_duplicates` enabled and a file whose MD5 is
in the remote fingerprint set, the worker does return the Skipped result — but
the file's task is nonetheless submitted to the worker pool (`upload` submits
every sorted file; the duplicate check runs inside the worker), contradicting
the claim that such a file never consumes a worker-pool slot. -/
theorem c1_counterexample :
    (upload_worker "dup.mp3" [] [] (some ["h"])
        ⟨"h", none, fun _ => none, fun _ => none⟩).result = .skipped "dup.mp3" ∧
    "dup.mp3" ∈ submittedTasks ["dup.mp3"] := by
  constructor
  · rfl
  · decide

/-- C1, amended: with dedup enabled, every candidate file whose MD5 is in the
remote fingerprint set lands in the skipped bucket (and never in uploaded or
error), and its worker returns the Skipped result without issuing any network
request — but the file's task is still submitted to the worker pool. -/
theorem c1_amended (tags playlists : List (String × Nat)) (L : List String)
    (env : String → FileEnv) (files : List String) (f : String)
    (hf : f ∈ files) (hmd5 : (env f).md5 ∈ L) :
    0 < skippedCount (upload tags playlists (some L) env files) f ∧
    skippedCount (upload tags playlists (some L) env files) f = files.count f ∧
    uploadedCount (upload tags playlists (some L) env files) f = 0 ∧
    errorCount (upload tags playlists (some L) env files) f = 0 ∧
    (upload_worker f tags playlists (some L) (env f)).requests = [] ∧
    f ∈ submittedTasks files := by
  have hw := upload_worker_skip f tags playlists L (env f) hmd5
  obtain ⟨hu, hs, he⟩ := upload_counts tags playlists (some L) env f files
  rw [hw] at hu hs he
  simp only at hu hs he
  refine ⟨?_, hs, hu, he, ?_, ?_⟩
  · rw [hs]
    exact List.count_pos_iff.2 hf
  · rw [hw]
  · exact (List.Perm.mem_iff
      (List.perm_insertionSort (fun a b => strLe a b = true) files)).2 hf

/-- C1, witness for the amended theorem at a concrete run. -/
theorem c1_amended_witness :
    0 < skippedCount
        (upload [] [] (some ["h"]) (fun _ => ⟨"h", none, fun _ => none, fun _ => none⟩)
          ["dup.mp3"]) "dup.mp3" :=
  (c1_amended [] [] ["h"] (fun _ => ⟨"h", none, fun _ => none, fun _ => none⟩)
    ["dup.mp3"] "dup.mp3" (by decide) (by decide)).1

/-- C2: every per-file failure mode — an exception in the upload request, a
falsy server result, a success message that does not match the pattern, or a
failed tag/playlist call — is converted into that file's Error result inside
the worker; and in a whole run, each file's bucket depends only on that file's
own environment, every submitted file being reported in some bucket. -/
theorem c2 (tags playlists : List (String × Nat)) (library : Option (List String))
    (fe : FileEnv) (p : String)
    (hnodup : ∀ L, library = some L → fe.md5 ∉ L) :
    (fe.uploadResp = none →
      (upload_worker p tags playlists library fe).result =
        .error p "File upload request error." none) ∧
    (∀ resp, fe.uploadResp = some resp → resp.result = false →
      (upload_worker p tags playlists library fe).result =
        .error p "File upload failed." (some resp)) ∧
    (∀ resp, fe.uploadResp = some resp → resp.result = true →
      parseTrackMessage resp.message = none →
      (upload_worker p tags playlists library fe).result =
        .error p "Unexpected message format. Maybe it's changed?" (some resp)) ∧
    (∀ resp tid, fe.uploadResp = some resp → resp.result = true →
      parseTrackMessage resp.message = some tid →
      ((∃ x ∈ tags, fe.tagResp x.2 ≠ some true) ∨
        (∃ x ∈ playlists, fe.playlistResp x.2 ≠ some true)) →
      ∃ s, (upload_worker p tags playlists library fe).result = .error p s none) ∧
    (∀ env env' : String → FileEnv, ∀ files : List String, ∀ g : String,
      env g = env' g →
      uploadedCount (upload tags playlists library env files) g =
          uploadedCount (upload tags playlists library env' files) g ∧
      skippedCount (upload tags playlists library env files) g =
          skippedCount (upload tags playlists library env' files) g ∧
      errorCount (upload tags playlists library env files) g =
          errorCount (upload tags playlists library env' files) g) ∧
    (∀ env : String → FileEnv, ∀ files : List String, ∀ g, g ∈ files →
      0 < uploadedCount (upload tags playlists library env files) g +
          skippedCount (upload tags playlists library env files) g +
          errorCount (upload tags playlists library env files) g) := by
  have hns := upload_worker_no_skip p tags playlists library fe hnodup
  refine ⟨?_, ?_, ?_, ?_, ?_, ?_⟩
  · intro h
    rw [hns, uploadPhase_exc p tags playlists fe h]
  · intro resp h hres
    rw [hns, uploadPhase_failed p tags playlists fe resp h (by simp [hres])]
  · intro resp h hres hmsg
    rw [hns, uploadPhase_bad_message p tags playlists fe resp h hres hmsg]
  · intro resp tid h hres hmsg hfail
    rw [hns]
    rcases hfail with htag | hpl
    · obtain ⟨s, hs⟩ := runTagCalls_some_fail fe p tags htag
      exact ⟨s, uploadPhase_tag_err p tags playlists fe resp tid _ h hres hmsg hs⟩
    · rcases htr : (runTagCalls fe p tags).2 with _ | err
      · obtain ⟨s, hs⟩ := runPlaylistCalls_some_fail fe p playlists hpl
        exact ⟨s, uploadPhase_playlist_err p tags playlists fe resp tid _ h hres hmsg htr hs⟩
      · obtain ⟨s, rfl⟩ := runTagCalls_err_shape fe p tags err htr
        exact ⟨s, uploadPhase_tag_err p tags playlists fe resp tid _ h hres hmsg htr⟩
  · intro env env' files g henv
    obtain ⟨hu, hs, he⟩ := upload_counts tags playlists library env g files
    obtain ⟨hu', hs', he'⟩ := upload_counts tags playlists library env' g files
    rw [henv] at hu hs he
    exact ⟨hu.trans hu'.symm, hs.trans hs'.symm, he.trans he'.symm⟩
  · intro env files g hg
    rw [upload_counts_sum tags playlists library env g files]
    exact List.count_pos_iff.2 hg

/-- C2, witness: a concrete file whose upload request raises is reported as an
Error result. -/
theorem c2_witness :
    (upload_worker "a.mp3" [] [] none
        ⟨"m", none, fun _ => none, fun _ => none⟩).result =
      .error "a.mp3" "File upload request error." none :=
  (c2 [] [] none ⟨"m", none, fun _ => none, fun _ => none⟩ "a.mp3"
    (fun _ h => Option.noConfusion h)).1 rfl

/-- C3: in any run, each input file path lands in exactly one of the three
buckets (its bucket entries across uploaded, skipped and error number exactly
one), a path not in the input appears in none, and a file that was dispatched
to the upload path (its worker issued the upload request) ends in exactly one
of uploaded or error, never skipped. -/
theorem c3 (tags playlists : List (String × Nat)) (library : Option (List String))
    (env : String → FileEnv) (files : List String) (hnd : files.Nodup) (f : String) :
    (f ∈ files →
      uploadedCount (upload tags playlists library env files) f +
        skippedCount (upload tags playlists library env files) f +
        errorCount (upload tags playlists library env files) f = 1) ∧
    (f ∉ files →
      uploadedCount (upload tags playlists library env files) f = 0 ∧
      skippedCount (upload tags playlists library env files) f = 0 ∧
      errorCount (upload tags playlists library env files) f = 0) ∧
    (f ∈ files → .uploadReq ∈ (upload_worker f tags playlists library (env f)).requests →
      skippedCount (upload tags playlists library env files) f = 0 ∧
      uploadedCount (upload tags playlists library env files) f +
        errorCount (upload tags playlists library env files) f = 1) := by
  obtain ⟨hu, hs, he⟩ := upload_counts tags playlists library env f files
  refine ⟨?_, ?_, ?_⟩
  · intro hf
    rw [upload_counts_sum tags playlists library env f files]
    exact List.count_eq_one_of_mem hnd hf
  · intro hf
    have hc : files.count f = 0 := List.count_eq_zero_of_not_mem hf
    rw [hc] at hu hs he
    refine ⟨?_, ?_, ?_⟩
    · rw [hu]; cases (upload_worker f tags playlists library (env f)).result <;> simp
    · rw [hs]; cases (upload_worker f tags playlists library (env f)).result <;> simp
    · rw [he]; cases (upload_worker f tags playlists library (env f)).result <;> simp
  · intro hf hreq
    have hnsk := upload_worker_dispatched_not_skipped f tags playlists library (env f) hreq
    have hsum := upload_counts_sum tags playlists library env f files
    have hc1 : files.count f = 1 := List.count_eq_one_of_mem hnd hf
    have hs0 : skippedCount (upload tags playlists library env files) f = 0 := by
      rw [hs]
      cases hw : (upload_worker f tags playlists library (env f)).result with
      | skipped q => exact absurd hw (hnsk q)
      | uploaded q tid => simp
      | error q s resp => simp
    refine ⟨hs0, ?_⟩
    rw [hc1] at hsum
    omega

/-- C3, witness: a two-file run where one file is skipped and the other
uploaded; each lands in exactly one bucket. -/
theorem c3_witness :
    uploadedCount
        (upload [] [] (some ["h"])
          (fun p => if p = "dup.mp3" then ⟨"h", none, fun _ => none, fun _ => none⟩
            else ⟨"x", some ⟨true, "File b.mp3 (42) uploaded successfully and is being processed."⟩,
              fun _ => some true, fun _ => some true⟩)
          ["b.mp3", "dup.mp3"]) "b.mp3" +
      skippedCount
        (upload [] [] (some ["h"])
          (fun p => if p = "dup.mp3" then ⟨"h", none, fun _ => none, fun _ => none⟩
            else ⟨"x", some ⟨true, "File b.mp3 (42) uploaded successfully and is being processed."⟩,
              fun _ => some true, fun _ => some true⟩)
          ["b.mp3", "dup.mp3"]) "b.mp3" +
      errorCount
        (upload [] [] (some ["h"])
          (fun p => if p = "dup.mp3" then ⟨"h", none, fun _ => none, fun _ => none⟩
            else ⟨"x", some ⟨true, "File b.mp3 (42) uploaded successfully and is being processed."⟩,
              fun _ => some true, fun _ => some true⟩)
          ["b.mp3", "dup.mp3"]) "b.mp3" = 1 :=
  (c3 [] [] (some ["h"])
    (fun p => if p = "dup.mp3" then ⟨"h", none, fun _ => none, fun _ => none⟩
      else ⟨"x", some ⟨true, "File b.mp3 (42) uploaded successfully and is being processed."⟩,
        fun _ => some true, fun _ => some true⟩)
    ["b.mp3", "dup.mp3"] (by decide) "b.mp3").1 (by decide)

lemma uploadPhase_ok_result (p : String) (tags playlists : List (String × Nat))
    (fe : FileEnv) (resp : UploadResponse) (tid : Nat)
    (h : fe.uploadResp = some resp) (hres : resp.result = true)
    (hmsg : parseTrackMessage resp.message = some tid)
    (htr : (runTagCalls fe p tags).2 = none)
    (hpr : (runPlaylistCalls fe p playlists).2 = none) :
    (uploadPhase p tags playlists fe).result = .uploaded p tid := by
  unfold uploadPhase
  rw [h]
  simp only [hres, if_pos, hmsg]
  rcases hrt : runTagCalls fe p tags with ⟨treqs, tres⟩
  rw [hrt] at htr
  simp only at htr
  subst htr
  rcases hrp : runPlaylistCalls fe p playlists with ⟨preqs, pres⟩
  rw [hrp] at hpr
  simp only at hpr
  subst hpr
  simp

/-- C5, counterexample: the code's pattern has a `.*` wildcard where the claim
requires the uploaded file's basename, so a success message naming a
different file (`b.mp3` while uploading `a.mp3`) still matches: the worker
reports Uploaded with the extracted id instead of the Error the claim
requires, even though the literal basename pattern does not match the
message. -/
theorem c5_counterexample :
    (upload_worker "a.mp3" [] [] none
        ⟨"m", some ⟨true, "File b.mp3 (42) uploaded successfully and is being processed."⟩,
          fun _ => some true, fun _ => some true⟩).result = .uploaded "a.mp3" 42 ∧
    parseTrackMessageBase "a.mp3"
      "File b.mp3 (42) uploaded successfully and is being processed." = none := by
  constructor
  · decide
  · decide

/-- C5, amended: the track id is extracted by matching the message against
`File <any text> (<digits>) uploaded successfully and is being processed.`
(a wildcard, not the file's basename); given a truthy result field, the
worker's result is the message-format Error record retaining the raw response
if and only if the message does not match this pattern, and when it does
match (and tags/playlists all apply) the worker returns Uploaded with the
extracted id. -/
theorem c5_amended (tags playlists : List (String × Nat)) (library : Option (List String))
    (fe : FileEnv) (p : String) (resp : UploadResponse)
    (hnodup : ∀ L, library = some L → fe.md5 ∉ L)
    (hresp : fe.uploadResp = some resp) (hres : resp.result = true) :
    ((upload_worker p tags playlists library fe).result =
        .error p "Unexpected message format. Maybe it's changed?" (some resp) ↔
      parseTrackMessage resp.message = none) ∧
    (∀ tid, parseTrackMessage resp.message = some tid →
      (∀ x ∈ tags, fe.tagResp x.2 = some true) →
      (∀ x ∈ playlists, fe.playlistResp x.2 = some true) →
      (upload_worker p tags playlists library fe).result = .uploaded p tid) := by
  have hns := upload_worker_no_skip p tags playlists library fe hnodup
  constructor
  · constructor
    · intro herr
      cases hm : parseTrackMessage resp.message with
      | none => rfl
      | some tid =>
        exfalso
        rw [hns] at herr
        rcases htr : (runTagCalls fe p tags).2 with _ | err
        · rcases hpr : (runPlaylistCalls fe p playlists).2 with _ | err2
          · rw [uploadPhase_ok_result p tags playlists fe resp tid hresp hres hm htr hpr]
              at herr
            exact WorkerResult.noConfusion herr
          · obtain ⟨s, rfl⟩ := runPlaylistCalls_err_shape fe p playlists err2 hpr
            rw [uploadPhase_playlist_err p tags playlists fe resp tid _ hresp hres hm htr hpr]
              at herr
            simp at herr
        · obtain ⟨s, rfl⟩ := runTagCalls_err_shape fe p tags err htr
          rw [uploadPhase_tag_err p tags playlists fe resp tid _ hresp hres hm htr] at herr
          simp at herr
    · intro hm
      rw [hns, uploadPhase_bad_message p tags playlists fe resp hresp hres hm]
  · intro tid hm htags hpls
    rw [hns, uploadPhase_success p tags playlists fe resp tid hresp hres hm htags hpls]

/-- C5, witness: a concrete non-matching message yields the message-format
Error retaining the raw response. -/
theorem c5_amended_witness :
    (upload_worker "a.mp3" [] [] none
        ⟨"m", some ⟨true, "garbage"⟩, fun _ => some true, fun _ => some true⟩).result =
      .error "a.mp3" "Unexpected message format. Maybe it's changed?" (some ⟨true, "garbage"⟩) :=
  ((c5_amended [] [] none
      ⟨"m", some ⟨true, "garbage"⟩, fun _ => some true, fun _ => some true⟩ "a.mp3"
      ⟨true, "garbage"⟩ (fun _ h => Option.noConfusion h) rfl rfl).1).2 (by decide)

/-- C6: when the upload call succeeded (truthy result, id extracted) but some
tag-apply or playlist-append call fails (exception or falsy result), the
file's terminal result is the corresponding Error record — not Uploaded —
and the request trace shows the worker stopped at the failing call: no later
tag or playlist request is issued for that file. -/
theorem c6 (library : Option (List String)) (fe : FileEnv) (p : String)
    (resp : UploadResponse) (tid : Nat)
    (hnodup : ∀ L, library = some L → fe.md5 ∉ L)
    (hresp : fe.uploadResp = some resp) (hres : resp.result = true)
    (hmsg : parseTrackMessage resp.message = some tid) :
    (∀ l1 x l2 playlists, (∀ y ∈ l1, fe.tagResp y.2 = some true) →
      fe.tagResp x.2 ≠ some true →
      upload_worker p (l1 ++ x :: l2) playlists library fe =
        ⟨.error p (tagFailSummary (fe.tagResp x.2)) none,
          .uploadReq :: (l1.map (fun y => Request.tagTracks y.2) ++ [.tagTracks x.2])⟩) ∧
    (∀ tags l1 x l2, (∀ y ∈ tags, fe.tagResp y.2 = some true) →
      (∀ y ∈ l1, fe.playlistResp y.2 = some true) →
      fe.playlistResp x.2 ≠ some true →
      upload_worker p tags (l1 ++ x :: l2) library fe =
        ⟨.error p (playlistFailSummary (fe.playlistResp x.2)) none,
          .uploadReq :: (tags.map (fun y => Request.tagTracks y.2) ++
            (l1.map (fun y => Request.appendPlaylist y.2) ++ [.appendPlaylist x.2]))⟩) := by
  constructor
  · intro l1 x l2 playlists h1 hx
    rw [upload_worker_no_skip p (l1 ++ x :: l2) playlists library fe hnodup]
    exact uploadPhase_tag_fail p playlists fe resp tid l1 x l2 hresp hres hmsg h1 hx
  · intro tags l1 x l2 htags h1 hx
    rw [upload_worker_no_skip p tags (l1 ++ x :: l2) library fe hnodup]
    exact uploadPhase_playlist_fail p tags fe resp tid l1 x l2 hresp hres hmsg htags h1 hx

/-- C6, witness: a concrete run where the second of three tags fails — the
result is the tag-failure Error and the third tag and the playlist are never
requested. -/
theorem c6_witness :
    upload_worker "a.mp3" [("t1", 1), ("t2", 2), ("t3", 3)] [("p", 9)] none
        ⟨"m", some ⟨true, "File a.mp3 (42) uploaded successfully and is being processed."⟩,
          fun i => if i = 1 then some true else some false, fun _ => some true⟩ =
      ⟨.error "a.mp3" "Failed to apply tag." none,
        [.uploadReq, .tagTracks 1, .tagTracks 2]⟩ :=
  ((c6 none
      ⟨"m", some ⟨true, "File a.mp3 (42) uploaded successfully and is being processed."⟩,
        fun i => if i = 1 then some true else some false, fun _ => some true⟩ "a.mp3"
      ⟨true, "File a.mp3 (42) uploaded successfully and is being processed."⟩ 42
      (fun _ h => Option.noConfusion h) rfl rfl (by decide)).1
    [("t1", 1)] ("t2", 2) [("t3", 3)] [("p", 9)]
    (by decide) (by decide))

/-! ## Claims about the top-level run and discovery -/

/-- C4, counterexample: a login failure reported by the server raises
`ValueError`, which `process` catches, prints and returns from — the
interpreter then exits with status 0, not the non-zero status the claim
requires (the run does abort before discovery). -/
theorem c4_counterexample :
    process ⟨.valueError, .ok, true⟩ = ⟨0, false, false, false⟩ := by
  decide

/-- C4, amended: if the login call or the supported-filetypes call fails, the
run aborts before any discovery, confirmation or upload work; the process
exits non-zero only when the failure is an exception other than `ValueError`
(e.g. an HTTP error) — a server-reported `ValueError` is caught and the
process still exits 0, as it does on normal completion. -/
theorem c4_amended (env : ProcessEnv) :
    (env.loginOutcome ≠ .ok ∨ env.filetypesOutcome ≠ .ok →
      (process env).ranDiscovery = false ∧ (process env).ranConfirm = false ∧
        (process env).ranUpload = false) ∧
    (env.loginOutcome = .otherExc → (process env).exitCode = 1) ∧
    (env.loginOutcome = .valueError → (process env).exitCode = 0) ∧
    (env.loginOutcome = .ok → env.filetypesOutcome = .otherExc →
      (process env).exitCode = 1) ∧
    (env.loginOutcome = .ok → env.filetypesOutcome = .valueError →
      (process env).exitCode = 0) ∧
    (env.loginOutcome = .ok → env.filetypesOutcome = .ok →
      (process env).exitCode = 0) := by
  obtain ⟨lo, fo, ca⟩ := env
  cases lo <;> cases fo <;> cases ca <;> decide

/-- C4, witness: the amended theorem at a concrete aborted run. -/
theorem c4_amended_witness :
    (process ⟨.valueError, .ok, true⟩).ranDiscovery = false ∧
    (process ⟨.valueError, .ok, true⟩).exitCode = 0 :=
  ⟨((c4_amended ⟨.valueError, .ok, true⟩).1 (Or.inl (by decide))).1,
    (c4_amended ⟨.valueError, .ok, true⟩).2.2.1 rfl⟩

/-- C9: `discover_files` returns exactly the files reached by walking the
given roots whose `splitext` extension is in the allowed set (a
traversal-order-free membership characterization, symmetric in the root
order); on a root holding `a.mp3`, `b.txt`, `.hidden.mp3` with allowed set
`{.mp3}` the non-filtering variant returns `{a.mp3, .hidden.mp3}` while the
hidden-file-filtering legacy variant returns `{a.mp3}`. -/
theorem c9 :
    (∀ (roots : List FSEntry) (filetypes : List String) (p : String),
      p ∈ discover_files roots filetypes ↔
        ∃ d n, (d, n) ∈ (roots.map walkTop).flatten ∧
          filetypes.contains (splitextExt n) = true ∧ p = joinPath d n) ∧
    (∀ (r1 r2 : List FSEntry) (filetypes : List String) (p : String),
      p ∈ discover_files (r1 ++ r2) filetypes ↔
        p ∈ discover_files (r2 ++ r1) filetypes) ∧
    discover_files [.dir "root" [.file "a.mp3", .file "b.txt", .file ".hidden.mp3"]]
        [".mp3"] = ["root/a.mp3", "root/.hidden.mp3"] ∧
    load_files [".mp3"] (.dir "root" [.file "a.mp3", .file "b.txt", .file ".hidden.mp3"])
      = ["root/a.mp3"] := by
  have hchar : ∀ (roots : List FSEntry) (filetypes : List String) (p : String),
      p ∈ discover_files roots filetypes ↔
        ∃ d n, (d, n) ∈ (roots.map walkTop).flatten ∧
          filetypes.contains (splitextExt n) = true ∧ p = joinPath d n := by
    intro roots filetypes p
    simp only [discover_files, List.mem_map, List.mem_filter]
    constructor
    · rintro ⟨⟨d, n⟩, ⟨hmem, hft⟩, rfl⟩
      exact ⟨d, n, hmem, hft, rfl⟩
    · rintro ⟨d, n, hmem, hft, rfl⟩
      exact ⟨(d, n), ⟨hmem, hft⟩, rfl⟩
  refine ⟨hchar, ?_, by decide, by decide⟩
  intro r1 r2 filetypes p
  rw [hchar, hchar]
  constructor
  · rintro ⟨d, n, hmem, hft, rfl⟩
    refine ⟨d, n, ?_, hft, rfl⟩
    simp only [List.map_append, List.flatten_append, List.mem_append] at hmem ⊢
    exact hmem.symm
  · rintro ⟨d, n, hmem, hft, rfl⟩
    refine ⟨d, n, ?_, hft, rfl⟩
    simp only [List.map_append, List.flatten_append, List.mem_append] at hmem ⊢
    exact hmem.symm

/-! ## Lemmas about tag/playlist resolution -/

lemma dictInsert_not_mem (k : String) (v : Nat) (m : List (String × Nat))
    (h : k ∉ m.map Prod.fst) : dictInsert k v m = m ++ [(k, v)] := by
  induction m with
  | nil => rfl
  | cons e rest ih =>
    obtain ⟨k', v'⟩ := e
    have h1 : ¬ k' = k := fun he => h (by simp [he])
    have h2 : k ∉ rest.map Prod.fst := fun hm => h (by simp [hm])
    simp [dictInsert, h1, ih h2]

lemma dictInsertS_not_mem (k v : String) (m : List (String × String))
    (h : k ∉ m.map Prod.fst) : dictInsertS k v m = m ++ [(k, v)] := by
  induction m with
  | nil => rfl
  | cons e rest ih =>
    obtain ⟨k', v'⟩ := e
    have h1 : ¬ k' = k := fun he => h (by simp [he])
    have h2 : k ∉ rest.map Prod.fst := fun hm => h (by simp [hm])
    simp [dictInsertS, h1, ih h2]

lemma lookup_append_left (l1 l2 : List (String × Nat)) (k : String) (v : Nat)
    (h : l1.lookup k = some v) : (l1 ++ l2).lookup k = some v := by
  induction l1 with
  | nil => simp [List.lookup] at h
  | cons e rest ih =>
    obtain ⟨k', v'⟩ := e
    by_cases hk : k = k'
    · subst hk
      simp [List.lookup_cons] at h ⊢
      exact h
    · have hbeq : (k == k') = false := beq_eq_false_iff_ne.2 hk
      simp [List.lookup_cons, hbeq] at h ⊢
      exact ih h

lemma lookup_append_right (l1 l2 : List (String × Nat)) (k : String)
    (h : k ∉ l1.map Prod.fst) : (l1 ++ l2).lookup k = l2.lookup k := by
  induction l1 with
  | nil => rfl
  | cons e rest ih =>
    obtain ⟨k', v'⟩ := e
    have h1 : ¬ k = k' := fun he => h (by simp [he])
    have h2 : k ∉ rest.map Prod.fst := fun hm => h (by simp [hm])
    have hbeq : (k == k') = false := beq_eq_false_iff_ne.2 h1
    simp [List.lookup_cons, hbeq]
    exact ih h2

lemma lookup_map_self (f : String → Nat) (l : List String) (k : String) (h : k ∈ l) :
    (l.map (fun nm => (nm, f nm))).lookup k = some (f k) := by
  induction l with
  | nil => cases h
  | cons x rest ih =>
    by_cases hk : k = x
    · subst hk
      simp [List.lookup_cons]
    · rcases List.mem_cons.1 h with he | hm
      · exact absurd he hk
      · have hbeq : (k == x) = false := beq_eq_false_iff_ne.2 hk
        simp [List.lookup_cons, hbeq]
        exact ih hm

lemma lookup_keys_mem (l : List (String × Nat)) (k : String) (h : k ∈ l.map Prod.fst) :
    ∃ v, l.lookup k = some v ∧ (k, v) ∈ l := by
  induction l with
  | nil => cases h
  | cons e rest ih =>
    obtain ⟨k', v'⟩ := e
    by_cases hk : k = k'
    · subst hk
      exact ⟨v', by simp [List.lookup_cons], by simp⟩
    · have hm : k ∈ rest.map Prod.fst := by
        rcases List.mem_cons.1 h with he | hm
        · exact absurd he hk
        · exact hm
      obtain ⟨v, hv, hmem⟩ := ih hm
      have hbeq : (k == k') = false := beq_eq_false_iff_ne.2 hk
      exact ⟨v, by simp [List.lookup_cons, hbeq, hv], List.mem_cons_of_mem _ hmem⟩

lemma matchedNames_cons_pos (getName : α → Option String) (getId : α → Nat)
    (names : List String) (e : α) (cat : List α) (nm : String)
    (h : getName e = some nm) (hc : names.contains nm = true) :
    matchedNames getName getId names (e :: cat) = nm :: matchedNames getName getId names cat := by
  have hc' : nm ∈ names := by simpa using hc
  simp [matchedNames, matchedPairs, List.filterMap_cons, h, hc']

lemma matchedNames_cons_neg (getName : α → Option String) (getId : α → Nat)
    (names : List String) (e : α) (cat : List α) (nm : String)
    (h : getName e = some nm) (hc : names.contains nm = false) :
    matchedNames getName getId names (e :: cat) = matchedNames getName getId names cat := by
  have hc' : nm ∉ names := by simpa using hc
  simp [matchedNames, matchedPairs, List.filterMap_cons, h, hc']

lemma matchedNames_cons_none (getName : α → Option String) (getId : α → Nat)
    (names : List String) (e : α) (cat : List α) (h : getName e = none) :
    matchedNames getName getId names (e :: cat) = matchedNames getName getId names cat := by
  simp [matchedNames, matchedPairs, List.filterMap_cons, h]

lemma mem_matchedNames_of (getName : α → Option String) (getId : α → Nat)
    (names : List String) (cat : List α) (e : α) (nm : String)
    (he : e ∈ cat) (hn : getName e = some nm) (hc : names.contains nm = true) :
    nm ∈ matchedNames getName getId names cat := by
  have hc' : nm ∈ names := by simpa using hc
  simp only [matchedNames, List.mem_map]
  exact ⟨(nm, getId e), List.mem_filterMap.2 ⟨e, he, by simp [hn, hc']⟩, rfl⟩

lemma matchedNames_sub_names (getName : α → Option String) (getId : α → Nat)
    (names : List String) (cat : List α) (nm : String)
    (h : nm ∈ matchedNames getName getId names cat) : names.contains nm = true := by
  simp only [matchedNames, List.mem_map] at h
  obtain ⟨⟨nm', v⟩, hmem, hfst⟩ := h
  cases hfst
  obtain ⟨e, he, hsome⟩ := List.mem_filterMap.1 hmem
  cases hgn : getName e with
  | none => rw [hgn] at hsome; simp at hsome
  | some nm2 =>
    rw [hgn] at hsome
    simp only [Option.some_bind] at hsome
    split at hsome
    next hcond =>
      have h12 := Option.some.inj hsome
      have hnm : nm2 = nm' := congrArg Prod.fst h12
      subst hnm
      simpa using hcond
    next hcond => exact Option.noConfusion hsome

lemma scanCatalog_ok_iff (gn : α → Option String) (gi : α → Nat) (names : List String) :
    ∀ (cat : List α) (acc : List (String × Nat)) (missing : List String),
      missing.Nodup →
      ((∃ v, scanCatalog gn gi names cat acc missing = .ok v) ↔
        (∀ e ∈ cat, (gn e).isSome) ∧ (matchedNames gn gi names cat).Nodup ∧
          ∀ nm ∈ matchedNames gn gi names cat, nm ∈ missing) := by
  intro cat
  induction cat with
  | nil =>
    intro acc missing _
    simp [scanCatalog, matchedNames, matchedPairs]
  | cons e rest ih =>
    intro acc missing hmiss
    cases hgn : gn e with
    | none =>
      rw [matchedNames_cons_none gn gi names e rest hgn]
      constructor
      · rintro ⟨v, hv⟩
        simp [scanCatalog, hgn] at hv
      · rintro ⟨hsome, _, _⟩
        exact absurd (hsome e (List.mem_cons_self e rest)) (by simp [hgn])
    | some nm =>
      by_cases hc : names.contains nm = true
      · rw [matchedNames_cons_pos gn gi names e rest nm hgn hc]
        have hcm : nm ∈ names := by simpa using hc
        by_cases hm : nm ∈ missing
        · have hstep : scanCatalog gn gi names (e :: rest) acc missing =
              scanCatalog gn gi names rest (dictInsert nm (gi e) acc) (missing.erase nm) := by
            simp [scanCatalog, hgn, hcm, hm]
          rw [hstep, ih _ _ (hmiss.erase nm)]
          constructor
          · rintro ⟨hsome, hnd, hsub⟩
            have hnmem : nm ∉ matchedNames gn gi names rest := fun hmem =>
              ((hmiss.mem_erase_iff).1 (hsub nm hmem)).1 rfl
            refine ⟨?_, List.nodup_cons.2 ⟨hnmem, hnd⟩, ?_⟩
            · intro e' he'
              rcases List.mem_cons.1 he' with rfl | he''
              · simp [hgn]
              · exact hsome e' he''
            · intro x hx
              rcases List.mem_cons.1 hx with rfl | hx'
              · exact hm
              · exact ((hmiss.mem_erase_iff).1 (hsub x hx')).2
          · rintro ⟨hsome, hnd, hsub⟩
            refine ⟨fun e' he' => hsome e' (List.mem_cons_of_mem _ he'),
              (List.nodup_cons.1 hnd).2, ?_⟩
            intro x hx
            have hxne : x ≠ nm := fun heq => (List.nodup_cons.1 hnd).1 (heq ▸ hx)
            exact (hmiss.mem_erase_iff).2 ⟨hxne, hsub x (List.mem_cons_of_mem _ hx)⟩
        · constructor
          · rintro ⟨v, hv⟩
            simp [scanCatalog, hgn, hcm, hm] at hv
          · rintro ⟨_, _, hsub⟩
            exact absurd (hsub nm (List.mem_cons_self nm _)) hm
      · have hcf : names.contains nm = false := Bool.eq_false_iff.2 hc
        have hcn : nm ∉ names := fun hmm => hc (by simpa using hmm)
        rw [matchedNames_cons_neg gn gi names e rest nm hgn hcf]
        have hstep : scanCatalog gn gi names (e :: rest) acc missing =
            scanCatalog gn gi names rest acc missing := by
          simp [scanCatalog, hgn, hcn]
        rw [hstep, ih acc missing hmiss]
        constructor
        · rintro ⟨hsome, hnd, hsub⟩
          refine ⟨?_, hnd, hsub⟩
          intro e' he'
          rcases List.mem_cons.1 he' with rfl | h'
          · simp [hgn]
          · exact hsome e' h'
        · rintro ⟨hsome, hnd, hsub⟩
          exact ⟨fun e' he' => hsome e' (List.mem_cons_of_mem _ he'), hnd, hsub⟩

lemma matchedPairs_cons_pos (getName : α → Option String) (getId : α → Nat)
    (names : List String) (e : α) (cat : List α) (nm : String)
    (h : getName e = some nm) (hc : names.contains nm = true) :
    matchedPairs getName getId names (e :: cat) =
      (nm, getId e) :: matchedPairs getName getId names cat := by
  have hc' : nm ∈ names := by simpa using hc
  simp [matchedPairs, List.filterMap_cons, h, hc']

lemma matchedPairs_cons_neg (getName : α → Option String) (getId : α → Nat)
    (names : List String) (e : α) (cat : List α) (nm : String)
    (h : getName e = some nm) (hc : names.contains nm = false) :
    matchedPairs getName getId names (e :: cat) = matchedPairs getName getId names cat := by
  have hc' : nm ∉ names := by simpa using hc
  simp [matchedPairs, List.filterMap_cons, h, hc']

lemma scanCatalog_ok_val (gn : α → Option String) (gi : α → Nat) (names : List String) :
    ∀ (cat : List α) (acc : List (String × Nat)) (missing : List String),
      (∀ e ∈ cat, (gn e).isSome) →
      (matchedNames gn gi names cat).Nodup →
      (∀ nm ∈ matchedNames gn gi names cat, nm ∈ missing) →
      missing.Nodup →
      (∀ nm ∈ matchedNames gn gi names cat, nm ∉ acc.map Prod.fst) →
      scanCatalog gn gi names cat acc missing =
        .ok (acc ++ matchedPairs gn gi names cat,
          missing.filter (fun nm => !(matchedNames gn gi names cat).contains nm)) := by
  intro cat
  induction cat with
  | nil =>
    intro acc missing _ _ _ _ _
    simp [scanCatalog, matchedPairs, matchedNames]
  | cons e rest ih =>
    intro acc missing hsome hnd hsub hmiss hacc
    cases hgn : gn e with
    | none => exact absurd (hsome e (List.mem_cons_self e rest)) (by simp [hgn])
    | some nm =>
      by_cases hc : names.contains nm = true
      · have hcm : nm ∈ names := by simpa using hc
        have hmnc := matchedNames_cons_pos gn gi names e rest nm hgn hc
        have hm : nm ∈ missing := hsub nm (by rw [hmnc]; exact List.mem_cons_self nm _)
        have hnacc : nm ∉ acc.map Prod.fst :=
          hacc nm (by rw [hmnc]; exact List.mem_cons_self nm _)
        have hstep : scanCatalog gn gi names (e :: rest) acc missing =
            scanCatalog gn gi names rest (dictInsert nm (gi e) acc) (missing.erase nm) := by
          simp [scanCatalog, hgn, hcm, hm]
        have hnm_not : nm ∉ matchedNames gn gi names rest := by
          rw [hmnc] at hnd
          exact (List.nodup_cons.1 hnd).1
        have hndR : (matchedNames gn gi names rest).Nodup := by
          rw [hmnc] at hnd
          exact (List.nodup_cons.1 hnd).2
        have hsubR : ∀ x ∈ matchedNames gn gi names rest, x ∈ missing.erase nm := by
          intro x hx
          have hxne : x ≠ nm := fun heq => hnm_not (heq ▸ hx)
          refine (hmiss.mem_erase_iff).2 ⟨hxne, ?_⟩
          exact hsub x (by rw [hmnc]; exact List.mem_cons_of_mem _ hx)
        have haccR : ∀ x ∈ matchedNames gn gi names rest,
            x ∉ (dictInsert nm (gi e) acc).map Prod.fst := by
          intro x hx
          rw [dictInsert_not_mem nm (gi e) acc hnacc]
          simp only [List.map_append, List.mem_append]
          rintro (hin | hin)
          · exact hacc x (by rw [hmnc]; exact List.mem_cons_of_mem _ hx) hin
          · have hxne : x ≠ nm := fun heq => hnm_not (heq ▸ hx)
            simp at hin
            exact hxne hin
        rw [hstep, ih _ _ (fun e' he' => hsome e' (List.mem_cons_of_mem _ he'))
          hndR hsubR (hmiss.erase nm) haccR]
        rw [dictInsert_not_mem nm (gi e) acc hnacc,
          matchedPairs_cons_pos gn gi names e rest nm hgn hc, hmnc,
          hmiss.erase_eq_filter nm, List.filter_filter]
        apply congrArg Except.ok
        apply Prod.ext
        · simp
        · apply List.filter_congr
          intro a _
          simp only [List.contains_cons, Bool.not_or, bne, beq_eq_decide]
          rw [Bool.and_comm]
      · have hcf : names.contains nm = false := Bool.eq_false_iff.2 hc
        have hcn : nm ∉ names := fun hmm => hc (by simpa using hmm)
        have hstep : scanCatalog gn gi names (e :: rest) acc missing =
            scanCatalog gn gi names rest acc missing := by
          simp [scanCatalog, hgn, hcn]
        rw [hstep, matchedPairs_cons_neg gn gi names e rest nm hgn hcf,
          matchedNames_cons_neg gn gi names e rest nm hgn hcf]
        rw [matchedNames_cons_neg gn gi names e rest nm hgn hcf] at hnd hsub hacc
        exact ih acc missing (fun e' he' => hsome e' (List.mem_cons_of_mem _ he'))
          hnd hsub hmiss hacc

lemma createMissing_eq (createId : String → Nat) :
    ∀ (ds : List String) (acc : List (String × Nat)), ds.Nodup →
      (∀ nm ∈ ds, nm ∉ acc.map Prod.fst) →
      createMissing createId ds acc = acc ++ ds.map (fun nm => (nm, createId nm)) := by
  intro ds
  induction ds with
  | nil => intro acc _ _; simp [createMissing]
  | cons d rest ih =>
    intro acc hnd hdisj
    have hd : d ∉ acc.map Prod.fst := hdisj d (List.mem_cons_self d rest)
    have hstep : createMissing createId (d :: rest) acc =
        createMissing createId rest (dictInsert d (createId d) acc) := rfl
    rw [hstep, dictInsert_not_mem d (createId d) acc hd,
      ih (acc ++ [(d, createId d)]) (List.nodup_cons.1 hnd).2 ?_]
    · simp
    · intro nm hnm
      simp only [List.map_append, List.mem_append]
      rintro (h | h)
      · exact hdisj nm (List.mem_cons_of_mem _ hnm) h
      · simp at h
        exact (List.nodup_cons.1 hnd).1 (h ▸ hnm)

lemma resolveCatalog_ok_val (gn : α → Option String) (gi : α → Nat)
    (names : List String) (createId : String → Nat) (cat : List α)
    (hsome : ∀ e ∈ cat, (gn e).isSome)
    (hnd : (matchedNames gn gi names cat).Nodup) :
    resolveCatalog gn gi names createId cat =
      .ok (matchedPairs gn gi names cat ++
          (names.dedup.filter (fun nm => !(matchedNames gn gi names cat).contains nm)).map
            (fun nm => (nm, createId nm)),
        names.dedup.filter (fun nm => !(matchedNames gn gi names cat).contains nm)) := by
  have hsub : ∀ nm ∈ matchedNames gn gi names cat, nm ∈ names.dedup := by
    intro nm hnm
    rw [List.mem_dedup]
    have := matchedNames_sub_names gn gi names cat nm hnm
    simpa using this
  have hscan := scanCatalog_ok_val gn gi names cat [] names.dedup hsome hnd hsub
    (List.nodup_dedup names) (by intro nm _; simp)
  unfold resolveCatalog
  rw [hscan]
  show Except.ok _ = _
  rw [createMissing_eq createId _ _ ((List.nodup_dedup names).filter _) ?_]
  · simp
  · intro nm hnm
    have hcond := (List.mem_filter.1 hnm).2
    intro hk
    have : nm ∈ matchedNames gn gi names cat := by
      simpa [matchedNames] using hk
    simp [this] at hcond

lemma matchedPairs_mem_elim (gn : α → Option String) (gi : α → Nat)
    (names : List String) (cat : List α) (nm : String) (v : Nat)
    (h : (nm, v) ∈ matchedPairs gn gi names cat) :
    ∃ e ∈ cat, gn e = some nm ∧ v = gi e := by
  obtain ⟨e, he, hsome⟩ := List.mem_filterMap.1 h
  cases hgn : gn e with
  | none => rw [hgn] at hsome; simp at hsome
  | some nm2 =>
    rw [hgn] at hsome
    simp only [Option.some_bind] at hsome
    split at hsome
    next hcond =>
      have h12 := Option.some.inj hsome
      rw [Prod.mk.injEq] at h12
      obtain ⟨h31, h32⟩ := h12
      refine ⟨e, he, ?_, h32.symm⟩
      rw [hgn, h31]
    next => exact Option.noConfusion hsome

lemma resolveCatalog_spec (gn : α → Option String) (gi : α → Nat) (names : List String)
    (createId : String → Nat) (cat : List α)
    (hsome : ∀ e ∈ cat, (gn e).isSome)
    (hnd : (matchedNames gn gi names cat).Nodup) :
    ∃ m created, resolveCatalog gn gi names createId cat = .ok (m, created) ∧
      (m.map Prod.fst).Nodup ∧ created.Nodup ∧
      ∀ nm ∈ names,
        (∃ e, e ∈ cat ∧ gn e = some nm ∧ m.lookup nm = some (gi e) ∧ nm ∉ created) ∨
        (m.lookup nm = some (createId nm) ∧ nm ∈ created ∧
          ∀ e ∈ cat, gn e ≠ some nm) := by
  classical
  set mn := matchedNames gn gi names cat with hmn
  set mp := matchedPairs gn gi names cat with hmp
  set created := names.dedup.filter (fun nm => !mn.contains nm) with hcr
  set m := mp ++ created.map (fun nm => (nm, createId nm)) with hm
  have hcreated_nd : created.Nodup := (List.nodup_dedup names).filter _
  have hmem_created : ∀ nm, nm ∈ created ↔ nm ∈ names ∧ nm ∉ mn := by
    intro nm
    rw [hcr, List.mem_filter, List.mem_dedup]
    constructor
    · rintro ⟨h1, h2⟩
      refine ⟨h1, fun hmm => ?_⟩
      simp [hmm] at h2
    · rintro ⟨h1, h2⟩
      exact ⟨h1, by simp [h2]⟩
  refine ⟨m, created, resolveCatalog_ok_val gn gi names createId cat hsome hnd, ?_, hcreated_nd, ?_⟩
  · rw [hm]
    have hkeys : (mp ++ created.map (fun nm => (nm, createId nm))).map Prod.fst =
        mn ++ created := by
      simp only [List.map_append, hmn, matchedNames, List.map_map]
      rw [show (Prod.fst ∘ fun nm => (nm, createId nm)) = id from rfl, List.map_id]
    rw [hkeys]
    rw [List.nodup_append]
    refine ⟨hnd, hcreated_nd, ?_⟩
    intro a ha hac
    exact ((hmem_created a).1 hac).2 ha
  · intro nm hnm
    by_cases hmem : nm ∈ mn
    · left
      have hkm : nm ∈ mp.map Prod.fst := by
        rw [hmn, matchedNames] at hmem
        exact hmem
      obtain ⟨v, hv, hmemP⟩ := lookup_keys_mem mp nm hkm
      obtain ⟨e, he, hgn, hveq⟩ := matchedPairs_mem_elim gn gi names cat nm v hmemP
      refine ⟨e, he, hgn, ?_, ?_⟩
      · rw [hm]
        rw [lookup_append_left mp _ nm v hv, hveq]
      · intro hc
        exact ((hmem_created nm).1 hc).2 hmem
    · right
      have hc : nm ∈ created := (hmem_created nm).2 ⟨hnm, hmem⟩
      refine ⟨?_, hc, ?_⟩
      · rw [hm, lookup_append_right mp _ nm (by rw [hmn, matchedNames] at hmem; exact hmem)]
        exact lookup_map_self createId created nm hc
      · intro e he hgn
        exact hmem (mem_matchedNames_of gn gi names cat e nm he hgn (by simpa using hnm))

lemma matchedNames_append (gn : α → Option String) (gi : α → Nat)
    (names : List String) (c1 c2 : List α) :
    matchedNames gn gi names (c1 ++ c2) =
      matchedNames gn gi names c1 ++ matchedNames gn gi names c2 := by
  simp [matchedNames, matchedPairs, List.filterMap_append]

lemma resolveCatalog_error (gn : α → Option String) (gi : α → Nat)
    (names : List String) (createId : String → Nat) (cat : List α) (msg : String)
    (h : scanCatalog gn gi names cat [] names.dedup = .error msg) :
    resolveCatalog gn gi names createId cat = .error msg := by
  unfold resolveCatalog
  rw [h]
  rfl

lemma resolveCatalog_ok_of_scan (gn : α → Option String) (gi : α → Nat)
    (names : List String) (createId : String → Nat) (cat : List α)
    (acc : List (String × Nat)) (missing : List String)
    (h : scanCatalog gn gi names cat [] names.dedup = .ok (acc, missing)) :
    resolveCatalog gn gi names createId cat =
      .ok (createMissing createId missing acc, missing) := by
  unfold resolveCatalog
  rw [h]
  rfl

lemma resolveCatalog_exists_ok (gn : α → Option String) (gi : α → Nat)
    (names : List String) (createId : String → Nat) (cat : List α) :
    (∃ v, resolveCatalog gn gi names createId cat = .ok v) ↔
      (∀ e ∈ cat, (gn e).isSome) ∧ (matchedNames gn gi names cat).Nodup := by
  have hiff := scanCatalog_ok_iff gn gi names cat [] names.dedup (List.nodup_dedup names)
  constructor
  · rintro ⟨v, hv⟩
    cases hs : scanCatalog gn gi names cat [] names.dedup with
    | error msg =>
      rw [resolveCatalog_error gn gi names createId cat msg hs] at hv
      exact Except.noConfusion hv
    | ok w =>
      obtain ⟨hsome, hnd, _⟩ := hiff.1 ⟨w, hs⟩
      exact ⟨hsome, hnd⟩
  · rintro ⟨hsome, hnd⟩
    have hsub : ∀ nm ∈ matchedNames gn gi names cat, nm ∈ names.dedup := by
      intro nm hnm
      rw [List.mem_dedup]
      have := matchedNames_sub_names gn gi names cat nm hnm
      simpa using this
    obtain ⟨⟨acc, missing⟩, hs⟩ := hiff.2 ⟨hsome, hnd, hsub⟩
    exact ⟨_, resolveCatalog_ok_of_scan gn gi names createId cat acc missing hs⟩

lemma exists_error_of_not_ok {β : Type} (x : Except String β)
    (h : ¬ ∃ v, x = .ok v) : ∃ msg, x = .error msg := by
  cases x with
  | error msg => exact ⟨msg, rfl⟩
  | ok v => exact absurd ⟨v, rfl⟩ h

/-! ## Claims about tag/playlist resolution -/

/-- C7: under the precondition that resolution completes (each requested name
matches at most one catalog entry — see C10), both resolvers return a mapping
whose keys are distinct (exactly one id per requested name), where a name
found in the catalog maps to that pre-existing catalog id and every other
requested name maps to the id returned by its create-call; the list of
created names has no duplicates, so a name occurring several times in the
request triggers at most one create-call and every occurrence looks up the
same single binding. -/
theorem c7 (catalog : List (Nat × String)) (entries : List (Nat × List String))
    (field_map : List (String × Nat)) (tagNames playlistNames : List String)
    (createId createIdP : String → Nat)
    (hT : (matchedNames (fun e => some e.2) (fun e => e.1) tagNames catalog).Nodup)
    (hPsome : ∀ e ∈ entries, (entryName (sortFields field_map) e).isSome)
    (hPnd : (matchedNames (entryName (sortFields field_map)) (fun e => e.1)
      playlistNames entries).Nodup) :
    (∃ m created, load_tags catalog tagNames createId = .ok (m, created) ∧
      (m.map Prod.fst).Nodup ∧ created.Nodup ∧
      ∀ nm ∈ tagNames,
        (∃ tagId, (tagId, nm) ∈ catalog ∧ m.lookup nm = some tagId ∧ nm ∉ created) ∨
        (m.lookup nm = some (createId nm) ∧ nm ∈ created ∧
          ∀ tagId, (tagId, nm) ∉ catalog)) ∧
    (∃ m created, load_playlists entries field_map playlistNames createIdP = .ok (m, created) ∧
      (m.map Prod.fst).Nodup ∧ created.Nodup ∧
      ∀ nm ∈ playlistNames,
        (∃ pid info_list, (pid, info_list) ∈ entries ∧
          entryName (sortFields field_map) (pid, info_list) = some nm ∧
          m.lookup nm = some pid ∧ nm ∉ created) ∨
        (m.lookup nm = some (createIdP nm) ∧ nm ∈ created ∧
          ∀ pid info_list, (pid, info_list) ∈ entries →
            entryName (sortFields field_map) (pid, info_list) ≠ some nm)) := by
  constructor
  · obtain ⟨m, created, hok, hkeys, hcre, hchar⟩ :=
      resolveCatalog_spec (fun e => some e.2) (fun e => e.1) tagNames createId catalog
        (fun e _ => rfl) hT
    refine ⟨m, created, hok, hkeys, hcre, ?_⟩
    intro nm hnm
    rcases hchar nm hnm with ⟨e, he, hgn, hlk, hnc⟩ | ⟨hlk, hc, hnone⟩
    · left
      obtain ⟨id1, nm1⟩ := e
      simp only [Option.some.injEq] at hgn
      subst hgn
      exact ⟨id1, he, hlk, hnc⟩
    · right
      exact ⟨hlk, hc, fun tagId hmem => hnone (tagId, nm) hmem rfl⟩
  · obtain ⟨m, created, hok, hkeys, hcre, hchar⟩ :=
      resolveCatalog_spec (entryName (sortFields field_map)) (fun e => e.1)
        playlistNames createIdP entries hPsome hPnd
    refine ⟨m, created, hok, hkeys, hcre, ?_⟩
    intro nm hnm
    rcases hchar nm hnm with ⟨e, he, hgn, hlk, hnc⟩ | ⟨hlk, hc, hnone⟩
    · left
      obtain ⟨pid, info_list⟩ := e
      exact ⟨pid, info_list, he, hgn, hlk, hnc⟩
    · right
      exact ⟨hlk, hc, fun pid info_list hmem => hnone (pid, info_list) hmem⟩

/-- C7, witness: a request with a duplicated name and one name missing from
the catalog resolves to one binding per name. -/
theorem c7_witness :
    ∃ m created, load_tags [(7, "Rock")] ["Rock", "Pop", "Rock"] (fun _ => 99)
        = .ok (m, created) ∧
      (m.map Prod.fst).Nodup ∧ created.Nodup ∧
      ∀ nm ∈ ["Rock", "Pop", "Rock"],
        (∃ tagId, (tagId, nm) ∈ [(7, "Rock")] ∧ m.lookup nm = some tagId ∧ nm ∉ created) ∨
        (m.lookup nm = some 99 ∧ nm ∈ created ∧ ∀ tagId, (tagId, nm) ∉ [(7, "Rock")]) :=
  (c7 [(7, "Rock")] [(5, ["MyList"])] [("name", 0)] ["Rock", "Pop", "Rock"] ["MyList"]
    (fun _ => 99) (fun _ => 88) (by decide) (by decide) (by decide)).1

/-- C10: if the catalog holds two distinct entries whose embedded name equals
the same requested name, the scan removes that name from the missing set
twice and the second `set.remove` raises `KeyError` — resolution returns no
mapping; it completes exactly when the requested-and-matched names are
pairwise distinct (for playlists also requiring every entry to carry a
`name` field). -/
theorem c10 (catalog : List (Nat × String)) (entries : List (Nat × List String))
    (field_map : List (String × Nat)) (tagNames playlistNames : List String)
    (createId createIdP : String → Nat) :
    (¬ (matchedNames (fun e => some e.2) (fun e => e.1) tagNames catalog).Nodup →
      ∃ msg, load_tags catalog tagNames createId = .error msg) ∧
    ((matchedNames (fun e => some e.2) (fun e => e.1) tagNames catalog).Nodup →
      ∃ v, load_tags catalog tagNames createId = .ok v) ∧
    (∀ (l1 l2 l3 : List (Nat × String)) (id1 id2 : Nat) (nm : String),
      tagNames.contains nm = true →
      catalog = l1 ++ (id1, nm) :: (l2 ++ (id2, nm) :: l3) →
      ∃ msg, load_tags catalog tagNames createId = .error msg) ∧
    (¬ (matchedNames (entryName (sortFields field_map)) (fun e => e.1)
        playlistNames entries).Nodup →
      ∃ msg, load_playlists entries field_map playlistNames createIdP = .error msg) ∧
    ((∀ e ∈ entries, (entryName (sortFields field_map) e).isSome) →
      (matchedNames (entryName (sortFields field_map)) (fun e => e.1)
        playlistNames entries).Nodup →
      ∃ v, load_playlists entries field_map playlistNames createIdP = .ok v) := by
  have htagerr : ¬ (matchedNames (fun e => some e.2) (fun e => e.1) tagNames catalog).Nodup →
      ∃ msg, load_tags catalog tagNames createId = .error msg := by
    intro hnn
    apply exists_error_of_not_ok
    intro hok
    exact hnn ((resolveCatalog_exists_ok _ _ _ _ _).1 hok).2
  refine ⟨htagerr, ?_, ?_, ?_, ?_⟩
  · intro hnd
    exact (resolveCatalog_exists_ok _ _ _ _ _).2 ⟨fun e _ => rfl, hnd⟩
  · intro l1 l2 l3 id1 id2 nm hcont hcat
    apply htagerr
    intro hnd
    have h2 : 2 ≤ (matchedNames (fun e => some e.2) (fun e => e.1) tagNames catalog).count nm := by
      subst hcat
      rw [matchedNames_append,
        matchedNames_cons_pos (fun e => some e.2) (fun e => e.1) tagNames (id1, nm)
          (l2 ++ (id2, nm) :: l3) nm rfl hcont,
        matchedNames_append,
        matchedNames_cons_pos (fun e => some e.2) (fun e => e.1) tagNames (id2, nm)
          l3 nm rfl hcont]
      simp [List.count_append, List.count_cons]
      omega
    have hle := List.nodup_iff_count_le_one.1 hnd nm
    omega
  · intro hnn
    apply exists_error_of_not_ok
    intro hok
    exact hnn ((resolveCatalog_exists_ok _ _ _ _ _).1 hok).2
  · intro hsome hnd
    exact (resolveCatalog_exists_ok _ _ _ _ _).2 ⟨hsome, hnd⟩

/-- C10, witness: a catalog with two `Rock` tags makes resolution fail with a
`KeyError`, and a clean catalog resolves. -/
theorem c10_witness :
    (∃ msg, load_tags [(7, "Rock"), (8, "Rock")] ["Rock"] (fun _ => 99) = .error msg) ∧
    (∃ v, load_tags [(7, "Rock"), (8, "Jazz")] ["Rock"] (fun _ => 99) = .ok v) :=
  ⟨(c10 [(7, "Rock"), (8, "Rock")] [] [] ["Rock"] [] (fun _ => 99) (fun _ => 0)).1
      (by decide),
    (c10 [(7, "Rock"), (8, "Jazz")] [] [] ["Rock"] [] (fun _ => 99) (fun _ => 0)).2.1
      (by decide)⟩

lemma sortFields_get (field_map : List (String × Nat))
    (hperm : (field_map.map Prod.snd).Perm (List.range field_map.length)) :
    ∀ f p_, (f, p_) ∈ field_map → (sortFields field_map)[p_]? = some f := by
  haveI hTot : IsTotal (String × Nat) (fun a b : String × Nat => a.2 ≤ b.2) :=
    ⟨fun a b => Nat.le_total a.2 b.2⟩
  haveI hTrans : IsTrans (String × Nat) (fun a b : String × Nat => a.2 ≤ b.2) :=
    ⟨fun _ _ _ hab hbc => Nat.le_trans hab hbc⟩
  have hperm_s : (List.insertionSort (fun a b : String × Nat => a.2 ≤ b.2) field_map).Perm
      field_map := List.perm_insertionSort _ field_map
  have hsorted := List.sorted_insertionSort (fun a b : String × Nat => a.2 ≤ b.2) field_map
  have hmap_sorted : List.Sorted (fun a b : Nat => a ≤ b)
      ((List.insertionSort (fun a b : String × Nat => a.2 ≤ b.2) field_map).map Prod.snd) :=
    List.pairwise_map.2 hsorted
  have hperm2 : ((List.insertionSort (fun a b : String × Nat => a.2 ≤ b.2) field_map).map
      Prod.snd).Perm (List.range field_map.length) := (hperm_s.map Prod.snd).trans hperm
  have heq : (List.insertionSort (fun a b : String × Nat => a.2 ≤ b.2) field_map).map
      Prod.snd = List.range field_map.length :=
    List.eq_of_perm_of_sorted hperm2 hmap_sorted (List.sorted_le_range _)
  intro f p_ hmem
  have hmem_s : (f, p_) ∈ List.insertionSort (fun a b : String × Nat => a.2 ≤ b.2) field_map :=
    hperm_s.mem_iff.2 hmem
  obtain ⟨i, hi⟩ := List.mem_iff_get.1 hmem_s
  have hge : (List.insertionSort (fun a b : String × Nat => a.2 ≤ b.2) field_map)[(i : Nat)]? =
      some (f, p_) := by
    rw [List.getElem?_eq_getElem i.2]
    rw [List.get_eq_getElem] at hi
    rw [hi]
  have hsnd : ((List.insertionSort (fun a b : String × Nat => a.2 ≤ b.2) field_map).map
      Prod.snd)[(i : Nat)]? = some p_ := by
    rw [List.getElem?_map, hge]
    rfl
  have hip : (i : Nat) = p_ := by
    rw [heq] at hsnd
    have hilt : (i : Nat) < field_map.length := by
      have := i.2
      simpa [(hperm_s.length_eq)] using this
    rw [List.getElem?_range hilt] at hsnd
    exact Option.some.inj hsnd
  show ((List.insertionSort (fun a b : String × Nat => a.2 ≤ b.2) field_map).map
    Prod.fst)[p_]? = some f
  rw [List.getElem?_map, ← hip, hge]
  rfl

lemma zip_lookup_of_get (fields infos : List String) (f : String) (p_ : Nat)
    (hnd : fields.Nodup) (hget : fields[p_]? = some f) (hlen : p_ < infos.length) :
    (List.zip fields infos).lookup f = infos[p_]? := by
  induction fields generalizing infos p_ with
  | nil => simp at hget
  | cons f0 rest ih =>
    cases infos with
    | nil => simp at hlen
    | cons i0 irest =>
      cases p_ with
      | zero =>
        have hf : f0 = f := by simpa using hget
        subst hf
        simp [List.zip_cons_cons, List.lookup_cons]
      | succ p0 =>
        have hget' : rest[p0]? = some f := by simpa using hget
        have hmemf : f ∈ rest := List.getElem?_mem hget'
        have hne : ¬ f = f0 := fun he => (List.nodup_cons.1 hnd).1 (he ▸ hmemf)
        have hbeq : (f == f0) = false := beq_eq_false_iff_ne.2 hne
        rw [List.zip_cons_cons, List.lookup_cons]
        simp only [hbeq]
        rw [List.getElem?_cons_succ]
        exact ih irest p0 (List.nodup_cons.1 hnd).2 hget' (by simpa using hlen)

lemma dictOfPairsAux_nodup :
    ∀ (l acc : List (String × String)), (((acc ++ l).map Prod.fst)).Nodup →
      l.foldl (fun m kv => dictInsertS kv.1 kv.2 m) acc = acc ++ l := by
  intro l
  induction l with
  | nil => intro acc _; simp
  | cons kv rest ih =>
    intro acc hnd
    have hkey : kv.1 ∉ acc.map Prod.fst := by
      intro hmm
      have hcnt := List.nodup_iff_count_le_one.1 hnd kv.1
      have h1 : 1 ≤ (acc.map Prod.fst).count kv.1 := List.count_pos_iff.2 hmm
      have h2 : ((acc ++ kv :: rest).map Prod.fst).count kv.1 =
          (acc.map Prod.fst).count kv.1 + ((kv :: rest).map Prod.fst).count kv.1 := by
        simp [List.count_append]
      have h3 : 1 ≤ ((kv :: rest).map Prod.fst).count kv.1 := by
        simp [List.count_cons]
      omega
    rw [List.foldl_cons, dictInsertS_not_mem kv.1 kv.2 acc hkey,
      ih (acc ++ [(kv.1, kv.2)]) (by simpa using hnd)]
    simp

lemma dictOfPairs_nodup_eq (l : List (String × String)) (h : (l.map Prod.fst).Nodup) :
    dictOfPairs l = l := by
  have := dictOfPairsAux_nodup l [] (by simpa using h)
  simpa [dictOfPairs] using this

/-- C8, counterexample: the code reconstructs records by pairing fields in
increasing-position *rank* order with array elements in order, not by the
positions themselves; with `map = {name: 1, x: 2}` and entry `["A","B","C"]`
the code's record has `name = "A"` while the record described by the claim
(element at the assigned position) has `name = "B"`, and resolution of the
requested name `"B"` consequently misses entry 7 and creates a new playlist
instead of returning its id. -/
theorem c8_counterexample :
    entryName (sortFields [("name", 1), ("x", 2)]) (7, ["A", "B", "C"]) = some "A" ∧
    (playlistInfoSpec [("name", 1), ("x", 2)] ["A", "B", "C"]).lookup "name" = some "B" ∧
    load_playlists [(7, ["A", "B", "C"])] [("name", 1), ("x", 2)] ["B"] (fun _ => 99) =
      .ok ([("B", 99)], ["B"]) :=
  ⟨rfl, rfl, rfl⟩

/-- C8, amended: playlist resolution reconstructs each entry's record by
pairing the field with the i-th smallest assigned position with the i-th
array element; when the assigned positions are exactly `0..n-1` (and field
names are distinct, the array long enough), this coincides with the claim:
each field name maps to the array element at the position the map assigns
it. -/
theorem c8_amended (field_map : List (String × Nat)) (info_list : List String)
    (hkeys : (field_map.map Prod.fst).Nodup)
    (hperm : (field_map.map Prod.snd).Perm (List.range field_map.length))
    (hlen : field_map.length ≤ info_list.length) :
    ∀ f p_, (f, p_) ∈ field_map →
      (playlistInfo (sortFields field_map) info_list).lookup f = info_list[p_]? := by
  intro f p_ hmem
  have hfields_nd : (sortFields field_map).Nodup := by
    have hp : ((List.insertionSort (fun a b : String × Nat => a.2 ≤ b.2) field_map).map
        Prod.fst).Perm (field_map.map Prod.fst) :=
      (List.perm_insertionSort _ field_map).map Prod.fst
    exact hp.nodup_iff.2 hkeys
  have hflen : (sortFields field_map).length = field_map.length := by
    simp [sortFields, (List.perm_insertionSort
      (fun a b : String × Nat => a.2 ≤ b.2) field_map).length_eq]
  have hget := sortFields_get field_map hperm f p_ hmem
  have hzip_keys : ((List.zip (sortFields field_map) info_list).map Prod.fst).Nodup := by
    rw [List.map_fst_zip _ _ (by rw [hflen]; exact hlen)]
    exact hfields_nd
  have hplt : p_ < info_list.length := by
    have hp : p_ ∈ field_map.map Prod.snd := List.mem_map.2 ⟨(f, p_), hmem, rfl⟩
    have hlt := List.mem_range.1 (hperm.mem_iff.1 hp)
    omega
  rw [playlistInfo, dictOfPairs_nodup_eq _ hzip_keys]
  exact zip_lookup_of_get (sortFields field_map) info_list f p_ hfields_nd hget hplt

/-- C8, witness for the amended theorem: with contiguous positions the code's
record does give each field the element at its assigned position. -/
theorem c8_amended_witness :
    (playlistInfo (sortFields [("name", 0), ("x", 1)]) ["A", "B"]).lookup "x" =
      ["A", "B"][1]? :=
  c8_amended [("name", 0), ("x", 1)] ["A", "B"] (by decide) (by decide) (by decide)
    "x" 1 (by decide)

end IUploader
